import Mathlib

/-!
Shallow embedding of the latency-critical pipeline of the
`ultra-fast-altbot-15ms` repository (files `src/hotpath/mod.rs`,
`src/execution/mock.rs`, `src/data_feed/mod.rs`), together with theorems
settling the frozen claims about it.

Modelling conventions:
* Rust `u64`/`u32`/`usize` values are `Nat`.  Where the source performs
  arithmetic that can wrap (the cooldown deadline `last_trigger + cooldown_ms`,
  the simulator timestamps, the `u32` decrement in `decrement_open_intents`)
  the embedding takes the result modulo `2 ^ 64` resp. `2 ^ 32`, exactly as
  two-complement wrapping does in release builds.  The monotonic event
  counters (`emitted_intents`, `dropped_intents`, `gate_block_count`,
  `cooldown_block_count`, `submitted_count`, `ack_count`, `fill_count`) only
  ever gain `1` per processed event; they are modelled as unbounded `Nat`.
* Rust `u64::saturating_sub` is exactly `Nat` subtraction.
* The single floating-point computation, the percent return
  `((new - old) as f64 / old as f64) * 100.0`, is modelled with exact rational
  arithmetic (`ℚ`); all claims settled here depend only on the selection
  logic and on exactly representable values.
* The crossbeam bounded channels are modelled as a FIFO list with a capacity;
  `try_send` succeeds exactly when the queue is not full.
* The code is single-producer per channel and the claims are about sequential
  observable behaviour, so each Rust method becomes a pure state-passing
  function and a system trace is a fold of such steps.
-/

namespace AltBot

/-- Wrap modulus of the 64-bit unsigned integers. -/
def U64 : Nat := 2 ^ 64

/-- Wrap modulus of the 32-bit unsigned integers. -/
def U32 : Nat := 2 ^ 32

/-! ## Data model (`src/data_feed/mod.rs`, `src/hotpath/mod.rs`) -/

/-- Embeds `TradeTick` from `src/data_feed/mod.rs`. -/
structure TradeTick where
  symbol_id : Nat
  px_e8 : Nat
  ts_unix_ms : Nat
deriving Repr, DecidableEq

/-- Embeds `PricePoint` from `src/hotpath/mod.rs`. -/
structure PricePoint where
  px_e8 : Nat
  ts_unix_ms : Nat
deriving Repr, DecidableEq

/-- Embeds `PriceSnapshot` from `src/hotpath/mod.rs`: a fixed-capacity ring of
price points plus precomputed aggregate returns. -/
structure PriceSnapshot where
  prices : List PricePoint
  write_idx : Nat
  count : Nat
  window_ms : Nat
  ret_15m : Option ℚ
  ret_1h : Option ℚ
deriving Repr, DecidableEq

instance : Inhabited PriceSnapshot := ⟨⟨[], 0, 0, 0, none, none⟩⟩

/-- Embeds `PriceSnapshot::new`: capacity `window_secs * 100`, all slots
zeroed, empty count. -/
def PriceSnapshot.new (window_secs : Nat) : PriceSnapshot :=
  { prices := List.replicate (window_secs * 100) ⟨0, 0⟩
    write_idx := 0
    count := 0
    window_ms := window_secs * 1000
    ret_15m := none
    ret_1h := none }

/-- Embeds `PriceSnapshot::add`: write at `write_idx`, advance modulo
capacity, saturate `count` at capacity. -/
def PriceSnapshot.add (s : PriceSnapshot) (px_e8 ts_unix_ms : Nat) : PriceSnapshot :=
  let prices := s.prices.set s.write_idx ⟨px_e8, ts_unix_ms⟩
  { s with
    prices := prices
    write_idx := (s.write_idx + 1) % s.prices.length
    count := if s.count < s.prices.length then s.count + 1 else s.count }

/-- Accumulator of the scan loop inside `compute_return_60s` and
`compute_return_window`: the four local variables of the Rust `for` loop. -/
structure ScanAcc where
  oldest_price : Option Nat
  oldest_ts : Nat
  newest_price : Option Nat
  newest_ts : Nat
deriving Repr, DecidableEq

/-- Loop body of the ring scan: a point participates when
`ts_unix_ms >= cutoff_ts`; the oldest slot is replaced on strictly smaller
timestamp, the newest slot on strictly larger timestamp (both tests against
the running accumulator, as in the source). -/
def scanStep (cutoff_ts : Nat) (acc : ScanAcc) (point : PricePoint) : ScanAcc :=
  if cutoff_ts ≤ point.ts_unix_ms then
    let acc1 :=
      if point.ts_unix_ms < acc.oldest_ts then
        { acc with oldest_ts := point.ts_unix_ms, oldest_price := some point.px_e8 }
      else acc
    if acc.newest_ts < point.ts_unix_ms then
      { acc1 with newest_ts := point.ts_unix_ms, newest_price := some point.px_e8 }
    else acc1
  else acc

/-- Initial accumulator: `oldest_ts = u64::MAX`, `newest_ts = 0`, no prices. -/
def scanInit : ScanAcc := ⟨none, U64 - 1, none, 0⟩

/-- Shared tail of both return computations: scan `prices[0..count]` with the
given cutoff and form the percent return of the selected pair. -/
def PriceSnapshot.returnWithCutoff (s : PriceSnapshot) (cutoff_ts : Nat) : Option ℚ :=
  let acc := (s.prices.take s.count).foldl (scanStep cutoff_ts) scanInit
  match acc.oldest_price, acc.newest_price with
  | some old_px, some new_px =>
      if 0 < old_px then some (((new_px : ℚ) - (old_px : ℚ)) / (old_px : ℚ) * 100)
      else none
  | _, _ => none

/-- Embeds `PriceSnapshot::compute_return_60s`: needs at least two stored
points, cutoff is `current_ts_ms.saturating_sub(window_ms)`. -/
def PriceSnapshot.compute_return_60s (s : PriceSnapshot) (current_ts_ms : Nat) : Option ℚ :=
  if s.count < 2 then none
  else s.returnWithCutoff (current_ts_ms - s.window_ms)

/-- Embeds `PriceSnapshot::compute_return_window` (off hot-path variant with a
caller-chosen window in seconds). -/
def PriceSnapshot.compute_return_window (s : PriceSnapshot) (window_secs current_ts_ms : Nat) :
    Option ℚ :=
  if s.count < 2 then none
  else s.returnWithCutoff (current_ts_ms - window_secs * 1000)

/-- Embeds `PriceSnapshot::update_aggregates`: recompute the 15-minute and
1-hour returns and store them in the snapshot. -/
def PriceSnapshot.update_aggregates (s : PriceSnapshot) (current_ts_ms : Nat) : PriceSnapshot :=
  { s with
    ret_15m := s.compute_return_window (15 * 60) current_ts_ms
    ret_1h := s.compute_return_window (60 * 60) current_ts_ms }

/-! ## Execution data model and channels (`src/execution/mock.rs`) -/

/-- Embeds `OrderSide`. -/
inductive OrderSide where
  | Buy
  | Sell
deriving Repr, DecidableEq

/-- Embeds `OrderIntent`. -/
structure OrderIntent where
  symbol_id : Nat
  side : OrderSide
  px_e8 : Nat
  ts_unix_ms : Nat
deriving Repr, DecidableEq

/-- Embeds `OrderIntent::new`. -/
def OrderIntent.new (symbol_id : Nat) (side : OrderSide) (px_e8 ts_unix_ms : Nat) : OrderIntent :=
  ⟨symbol_id, side, px_e8, ts_unix_ms⟩

/-- Embeds `OrderEventKind`. -/
inductive OrderEventKind where
  | Submitted
  | Ack
  | Fill
deriving Repr, DecidableEq

/-- Embeds `OrderEvent`. -/
structure OrderEvent where
  kind : OrderEventKind
  symbol_id : Nat
  px_e8 : Nat
  ts_unix_ms : Nat
deriving Repr, DecidableEq

/-- Embeds `OrderEvent::new`. -/
def OrderEvent.new (kind : OrderEventKind) (symbol_id px_e8 ts_unix_ms : Nat) : OrderEvent :=
  ⟨kind, symbol_id, px_e8, ts_unix_ms⟩

/-- Model of a crossbeam bounded channel: a FIFO queue with a capacity.
`try_send` succeeds exactly when the queue holds fewer items than the
capacity. -/
structure BChannel (α : Type) where
  capacity : Nat
  queue : List α
deriving Repr, DecidableEq

/-- Model of `Sender::try_send`: enqueue and report success when the channel
is not full, otherwise leave the queue untouched and report failure. -/
def BChannel.try_send {α : Type} (ch : BChannel α) (x : α) : BChannel α × Bool :=
  if ch.queue.length < ch.capacity then ({ ch with queue := ch.queue ++ [x] }, true)
  else (ch, false)

/-! ## HotPath (`src/hotpath/mod.rs`) -/

/-- Embeds `TriggerEvent`. -/
structure TriggerEvent where
  symbol_id : Nat
  ts_unix_ms : Nat
  return_pct : ℚ
  price_e8 : Nat
deriving Repr, DecidableEq

/-- Embeds the `HotPath` struct.  The `ArcSwap<PriceSnapshot>` cells become a
plain list of snapshots (the claims are about sequential observable
behaviour); the atomic counters become `Nat` fields; the optional intent
sender becomes the sending half of the modelled bounded channel, carried in
the state so that emission effects are observable. -/
structure HotPath where
  can_buy : Bool
  threshold_pct : ℚ
  snapshots : List PriceSnapshot
  max_symbols : Nat
  max_open_intents : Nat
  open_intents : Nat
  budget : Nat
  cooldowns : List Nat
  cooldown_ms : Nat
  intent_tx : Option (BChannel OrderIntent)
  dropped_intents : Nat
  emitted_intents : Nat
  gate_block_count : Nat
  cooldown_block_count : Nat
deriving Repr, DecidableEq

/-- Embeds `HotPath::with_config`. -/
def HotPath.with_config (max_symbols : Nat) (threshold_pct : ℚ) (window_secs : Nat)
    (max_open_intents : Nat) (cooldown_ms : Nat) (initial_budget : Nat) : HotPath :=
  { can_buy := true
    threshold_pct := threshold_pct
    snapshots := List.replicate max_symbols (PriceSnapshot.new window_secs)
    max_symbols := max_symbols
    max_open_intents := max_open_intents
    open_intents := 0
    budget := initial_budget
    cooldowns := List.replicate max_symbols 0
    cooldown_ms := cooldown_ms
    intent_tx := none
    dropped_intents := 0
    emitted_intents := 0
    gate_block_count := 0
    cooldown_block_count := 0 }

/-- Embeds `HotPath::new` (defaults: `max_open = 10`, `cooldown = 500 ms`,
`budget = 1000`). -/
def HotPath.new (max_symbols : Nat) (threshold_pct : ℚ) (window_secs : Nat) : HotPath :=
  HotPath.with_config max_symbols threshold_pct window_secs 10 500 1000

/-- Embeds `HotPath::set_intent_sender`. -/
def HotPath.set_intent_sender (hp : HotPath) (ch : BChannel OrderIntent) : HotPath :=
  { hp with intent_tx := some ch }

/-- Embeds `HotPath::set_can_buy`. -/
def HotPath.set_can_buy (hp : HotPath) (b : Bool) : HotPath :=
  { hp with can_buy := b }

/-- Embeds `HotPath::update_snapshot`: bounds-check the symbol, clone the
current ring, append the point, publish the new ring; out-of-range symbols
leave the state untouched. -/
def HotPath.update_snapshot (hp : HotPath) (symbol_id px_e8 ts_unix_ms : Nat) : HotPath :=
  if symbol_id < hp.max_symbols then
    { hp with
      snapshots :=
        hp.snapshots.set symbol_id
          ((hp.snapshots.getD symbol_id default).add px_e8 ts_unix_ms) }
  else hp

/-- Embeds `HotPath::update_aggregates` (the method on `HotPath`, which swaps
in a snapshot with refreshed 15-minute and 1-hour aggregate returns). -/
def HotPath.update_aggregates (hp : HotPath) (symbol_id current_ts_ms : Nat) : HotPath :=
  if symbol_id < hp.max_symbols then
    { hp with
      snapshots :=
        hp.snapshots.set symbol_id
          ((hp.snapshots.getD symbol_id default).update_aggregates current_ts_ms) }
  else hp

/-- Embeds `HotPath::try_emit_intent`: bail out without a sender; check the
per-symbol cooldown (the deadline `last_trigger + cooldown_ms` wraps as u64
addition), then the budget, then the open-intent cap; on admit build the Buy
intent and `try_send` it — on success charge the gate state and count the
emission, on a full queue only count the drop. -/
def HotPath.try_emit_intent (hp : HotPath) (tick : TradeTick) : HotPath :=
  match hp.intent_tx with
  | none => hp
  | some ch =>
    if hp.max_symbols ≤ tick.symbol_id then hp
    else
      let last_trigger := hp.cooldowns.getD tick.symbol_id 0
      if tick.ts_unix_ms < (last_trigger + hp.cooldown_ms) % U64 then
        { hp with cooldown_block_count := hp.cooldown_block_count + 1 }
      else if hp.budget = 0 then
        { hp with gate_block_count := hp.gate_block_count + 1 }
      else if hp.max_open_intents ≤ hp.open_intents then
        { hp with gate_block_count := hp.gate_block_count + 1 }
      else
        let intent := OrderIntent.new tick.symbol_id OrderSide.Buy tick.px_e8 tick.ts_unix_ms
        match ch.try_send intent with
        | (ch1, true) =>
            { hp with
              intent_tx := some ch1
              emitted_intents := hp.emitted_intents + 1
              open_intents := (hp.open_intents + 1) % U32
              budget := hp.budget - 1
              cooldowns := hp.cooldowns.set tick.symbol_id tick.ts_unix_ms }
        | (ch1, false) =>
            { hp with
              intent_tx := some ch1
              dropped_intents := hp.dropped_intents + 1 }

/-- Embeds `HotPath::process_tick`: short-circuit on `can_buy == false` or an
out-of-range symbol, read the snapshot, compute the 60-second return, and on
`return >= threshold` run the emission attempt and report the trigger. -/
def HotPath.process_tick (hp : HotPath) (tick : TradeTick) : HotPath × Option TriggerEvent :=
  if ¬ hp.can_buy ∨ hp.max_symbols ≤ tick.symbol_id then (hp, none)
  else
    let snapshot := hp.snapshots.getD tick.symbol_id default
    match snapshot.compute_return_60s tick.ts_unix_ms with
    | some ret_60s =>
        if hp.threshold_pct ≤ ret_60s then
          (hp.try_emit_intent tick,
           some ⟨tick.symbol_id, tick.ts_unix_ms, ret_60s, tick.px_e8⟩)
        else (hp, none)
    | none => (hp, none)

/-- Embeds `HotPath::decrement_open_intents`: a u32 `fetch_sub(1)` (which
wraps on zero) followed, when the previous value was zero, by a compensating
`fetch_add(1)`; sequentially this is a saturating decrement. -/
def HotPath.decrement_open_intents (hp : HotPath) : HotPath :=
  let prev := hp.open_intents
  let v1 := (hp.open_intents + (U32 - 1)) % U32
  if prev = 0 then { hp with open_intents := (v1 + 1) % U32 }
  else { hp with open_intents := v1 }

/-- Embeds `HotPath::replenish_budget` (u64 `fetch_add`). -/
def HotPath.replenish_budget (hp : HotPath) (amount : Nat) : HotPath :=
  { hp with budget := (hp.budget + amount) % U64 }

/-! ## ExecutionMock (`src/execution/mock.rs`) -/

/-- Embeds the `ExecutionMock` struct: the event sender (a bounded channel
carried in the state), the three monotonic counters and the two configured
delays in microseconds. -/
structure ExecutionMock where
  event_tx : Option (BChannel OrderEvent)
  ack_count : Nat
  fill_count : Nat
  submitted_count : Nat
  ack_delay_us : Nat
  fill_delay_us : Nat
deriving Repr, DecidableEq

/-- Embeds `ExecutionMock::new`: builds the mock with a fresh event channel of
capacity `queue_capacity * 2` and zeroed counters, and returns it together
with the fresh intents channel of capacity `queue_capacity`. -/
def ExecutionMock.new (queue_capacity ack_delay_us fill_delay_us : Nat) :
    ExecutionMock × BChannel OrderIntent :=
  ({ event_tx := some ⟨queue_capacity * 2, []⟩
     ack_count := 0
     fill_count := 0
     submitted_count := 0
     ack_delay_us := ack_delay_us
     fill_delay_us := fill_delay_us },
   ⟨queue_capacity, []⟩)

/-- Embeds `ExecutionMock::process_intent`.  Returns the updated mock, the
`bool` result of the source function, and the three events it constructs in
order (each one is offered to the event channel with `try_send`, whose
result the source discards).  The Ack timestamp is the intent timestamp plus
`ack_delay_us / 1000` milliseconds and the Fill timestamp adds
`fill_delay_us / 1000` more; both additions wrap as u64. -/
def ExecutionMock.process_intent (m : ExecutionMock) (intent : OrderIntent) :
    ExecutionMock × Bool × List OrderEvent :=
  match m.event_tx with
  | none => (m, false, [])
  | some tx =>
    let submit_event := OrderEvent.new OrderEventKind.Submitted intent.symbol_id
      intent.px_e8 intent.ts_unix_ms
    let tx1 := (tx.try_send submit_event).1
    let ack_ts := (intent.ts_unix_ms + m.ack_delay_us / 1000) % U64
    let ack_event := OrderEvent.new OrderEventKind.Ack intent.symbol_id intent.px_e8 ack_ts
    let tx2 := (tx1.try_send ack_event).1
    let fill_ts := (ack_ts + m.fill_delay_us / 1000) % U64
    let fill_event := OrderEvent.new OrderEventKind.Fill intent.symbol_id intent.px_e8 fill_ts
    let tx3 := (tx2.try_send fill_event).1
    ({ m with
       event_tx := some tx3
       submitted_count := m.submitted_count + 1
       ack_count := m.ack_count + 1
       fill_count := m.fill_count + 1 },
     true,
     [submit_event, ack_event, fill_event])

/-! ## Combined system and traces (`src/main.rs` wiring)

The binary wires one `HotPath` (its `intent_tx` being the sending half of
the intents channel), one `ExecutionMock` draining the same channel, and a
feedback reader that drains the events channel and calls
`decrement_open_intents` on every `Fill`.  A trace is a list of these
operations applied sequentially. -/

/-- Combined state of the pipeline: the hot path and the simulator.  The
intents queue lives inside `hp.intent_tx`; the events queue inside
`sim.event_tx`. -/
structure System where
  hp : HotPath
  sim : ExecutionMock
deriving Repr, DecidableEq

/-- Operations a trace may perform, mirroring the threads of `src/main.rs`:
tick processing, one simulator receive-and-process step, one feedback step,
and the maintenance operations. -/
inductive SysOp where
  | tick (t : TradeTick)
  | simStep
  | feedbackStep
  | replenish (amount : Nat)
  | setCanBuy (b : Bool)
  | updateSnap (symbol_id px_e8 ts_unix_ms : Nat)
  | updateAggs (symbol_id current_ts_ms : Nat)
deriving Repr, DecidableEq

/-- Single trace step.  `simStep` embeds one `Ok(intent)` arm of
`ExecutionMock::run`: pop the oldest pending intent and run
`process_intent` on it (an empty queue is the `Empty` arm, a no-op).
`feedbackStep` embeds one iteration of the feedback reader in
`src/main.rs`: pop the oldest pending event and call
`decrement_open_intents` exactly on `Fill` events. -/
def System.step (s : System) (op : SysOp) : System :=
  match op with
  | .tick t => { s with hp := (s.hp.process_tick t).1 }
  | .simStep =>
    match s.hp.intent_tx with
    | some ch =>
      match ch.queue with
      | [] => s
      | intent :: rest =>
          { hp := { s.hp with intent_tx := some { ch with queue := rest } }
            sim := (s.sim.process_intent intent).1 }
    | none => s
  | .feedbackStep =>
    match s.sim.event_tx with
    | some ch =>
      match ch.queue with
      | [] => s
      | ev :: rest =>
          let sim1 := { s.sim with event_tx := some { ch with queue := rest } }
          if ev.kind = OrderEventKind.Fill then
            { hp := s.hp.decrement_open_intents, sim := sim1 }
          else { s with sim := sim1 }
    | none => s
  | .replenish n => { s with hp := s.hp.replenish_budget n }
  | .setCanBuy b => { s with hp := s.hp.set_can_buy b }
  | .updateSnap sym px ts => { s with hp := s.hp.update_snapshot sym px ts }
  | .updateAggs sym ts => { s with hp := s.hp.update_aggregates sym ts }

/-- Run a trace of operations from a starting state. -/
def System.run (s : System) (ops : List SysOp) : System :=
  ops.foldl System.step s

/-- Does this tick trigger (pass the `can_buy` flag, the bounds check, and
the `return_60s >= threshold` test) in the given hot-path state?  This is
exactly the condition under which `process_tick` reaches
`try_emit_intent`. -/
def HotPath.tickTriggers (hp : HotPath) (tick : TradeTick) : Bool :=
  hp.can_buy && tick.symbol_id < hp.max_symbols &&
    match (hp.snapshots.getD tick.symbol_id default).compute_return_60s tick.ts_unix_ms with
    | some ret_60s => hp.threshold_pct ≤ ret_60s
    | none => false

/-- Does this tick actually emit an intent (trigger, pass all three gate
checks, and find room in a present intents channel)? -/
def HotPath.tickEmits (hp : HotPath) (tick : TradeTick) : Bool :=
  hp.tickTriggers tick &&
    match hp.intent_tx with
    | none => false
    | some ch =>
      !(tick.ts_unix_ms < (hp.cooldowns.getD tick.symbol_id 0 + hp.cooldown_ms) % U64) &&
        hp.budget ≠ 0 && hp.open_intents < hp.max_open_intents &&
        ch.queue.length < ch.capacity

/-- Sum of the four gate counters of the hot path. -/
def HotPath.counterSum (hp : HotPath) : Nat :=
  hp.emitted_intents + hp.dropped_intents + hp.gate_block_count + hp.cooldown_block_count

/-- Number of trace operations that are ticks triggering in the state at
which they execute. -/
def System.triggeredCount (s : System) : List SysOp → Nat
  | [] => 0
  | op :: ops =>
      (match op with
       | .tick t => if s.hp.tickTriggers t then 1 else 0
       | _ => 0) + (s.step op).triggeredCount ops

/-- Timestamps, in trace order, of the ticks on the given symbol that emit an
intent in the state at which they execute. -/
def System.emittedTsOn (s : System) (sym : Nat) : List SysOp → List Nat
  | [] => []
  | op :: ops =>
      (match op with
       | .tick t => if t.symbol_id = sym ∧ s.hp.tickEmits t then [t.ts_unix_ms] else []
       | _ => []) ++ (s.step op).emittedTsOn sym ops

/-! ## Spec-side selection functions (for the windowed-return claim)

These follow the wording of the specification ("select the oldest point …
and the newest point …", first occurrence on timestamp ties), to be compared
against the scan loop embedded above. -/

/-- First point attaining the minimal timestamp of the list (`none` on the
empty list). -/
def firstMinTs : List PricePoint → Option PricePoint
  | [] => none
  | p :: ps =>
    match firstMinTs ps with
    | none => some p
    | some q => if q.ts_unix_ms < p.ts_unix_ms then some q else some p

/-- First point attaining the maximal timestamp of the list (`none` on the
empty list). -/
def firstMaxTs : List PricePoint → Option PricePoint
  | [] => none
  | p :: ps =>
    match firstMaxTs ps with
    | none => some p
    | some q => if p.ts_unix_ms < q.ts_unix_ms then some q else some p

/-- Declarative description of the windowed-return computation: among the
stored points with `ts ≥ now − window` select the (first) oldest and the
(first) newest by timestamp and return the percent change, absent when fewer
than two points are stored, no point is eligible, or the oldest price is
zero. -/
def PriceSnapshot.selectedReturn (s : PriceSnapshot) (current_ts_ms : Nat) : Option ℚ :=
  if s.count < 2 then none
  else
    let elig := (s.prices.take s.count).filter
      fun p => current_ts_ms - s.window_ms ≤ p.ts_unix_ms
    match firstMinTs elig, firstMaxTs elig with
    | some oldest, some newest =>
        if 0 < oldest.px_e8 then
          some (((newest.px_e8 : ℚ) - (oldest.px_e8 : ℚ)) / (oldest.px_e8 : ℚ) * 100)
        else none
    | _, _ => none

/-! ## Characterisation helpers for the scan loop -/

/-- Oldest-tracking half of the loop accumulator: price slot and running
minimal timestamp. -/
def oldStep (acc : Option Nat × Nat) (p : PricePoint) : Option Nat × Nat :=
  if p.ts_unix_ms < acc.2 then (some p.px_e8, p.ts_unix_ms) else acc

/-- Newest-tracking half of the loop accumulator: price slot and running
maximal timestamp. -/
def newStep (acc : Option Nat × Nat) (p : PricePoint) : Option Nat × Nat :=
  if acc.2 < p.ts_unix_ms then (some p.px_e8, p.ts_unix_ms) else acc

/-- Body of the scan loop without the window test (what the loop applies to
the points the test admits). -/
def scanUpd (acc : ScanAcc) (point : PricePoint) : ScanAcc :=
  let acc1 :=
    if point.ts_unix_ms < acc.oldest_ts then
      { acc with oldest_ts := point.ts_unix_ms, oldest_price := some point.px_e8 }
    else acc
  if acc.newest_ts < point.ts_unix_ms then
    { acc1 with newest_ts := point.ts_unix_ms, newest_price := some point.px_e8 }
  else acc1

/-- Result of folding `oldStep` with starting bound `bound`: the point the
loop ends up holding, described recursively. -/
def bestBelow (bound : Nat) : List PricePoint → Option PricePoint
  | [] => none
  | p :: ps =>
    if p.ts_unix_ms < bound then some ((bestBelow p.ts_unix_ms ps).getD p)
    else bestBelow bound ps

/-- Result of folding `newStep` with starting bound `bound`. -/
def bestAbove (bound : Nat) : List PricePoint → Option PricePoint
  | [] => none
  | p :: ps =>
    if bound < p.ts_unix_ms then some ((bestAbove p.ts_unix_ms ps).getD p)
    else bestAbove bound ps

/-! ## Claim-level predicates and fixtures -/

/-- Exactly one of the four gate counters advances by one, the other three
are unchanged. -/
def BumpsExactlyOne (a b : HotPath) : Prop :=
  (b.emitted_intents = a.emitted_intents + 1 ∧ b.dropped_intents = a.dropped_intents ∧
    b.gate_block_count = a.gate_block_count ∧ b.cooldown_block_count = a.cooldown_block_count)
  ∨ (b.emitted_intents = a.emitted_intents ∧ b.dropped_intents = a.dropped_intents + 1 ∧
    b.gate_block_count = a.gate_block_count ∧ b.cooldown_block_count = a.cooldown_block_count)
  ∨ (b.emitted_intents = a.emitted_intents ∧ b.dropped_intents = a.dropped_intents ∧
    b.gate_block_count = a.gate_block_count + 1 ∧ b.cooldown_block_count = a.cooldown_block_count)
  ∨ (b.emitted_intents = a.emitted_intents ∧ b.dropped_intents = a.dropped_intents ∧
    b.gate_block_count = a.gate_block_count ∧ b.cooldown_block_count = a.cooldown_block_count + 1)

/-- Wiring of `src/main.rs`: build the mock together with its channels and
hand the intents sender to the hot path. -/
def mkSystem (max_symbols : Nat) (threshold_pct : ℚ) (window_secs max_open_intents cooldown_ms
    initial_budget queue_capacity ack_delay_us fill_delay_us : Nat) : System :=
  let pair := ExecutionMock.new queue_capacity ack_delay_us fill_delay_us
  { hp := (HotPath.with_config max_symbols threshold_pct window_secs max_open_intents
      cooldown_ms initial_budget).set_intent_sender pair.2
    sim := pair.1 }

/-- Fixture ring: two stored points inside a 60 s window whose prices rise by
10 percent, so a tick at `ts = 1500` triggers a 5-percent threshold. -/
def trigRing : PriceSnapshot := ⟨[⟨100, 1000⟩, ⟨110, 1500⟩], 0, 2, 60000, none, none⟩

/-- Fixture hot path for the queue-backpressure scenario: three symbols, all
pre-loaded with `trigRing`, no cooldown, ample budget, and an intents channel
of capacity 1 that nobody drains. -/
def hpBackpressure : HotPath :=
  { can_buy := true
    threshold_pct := 5
    snapshots := [trigRing, trigRing, trigRing]
    max_symbols := 3
    max_open_intents := 10
    open_intents := 0
    budget := 10
    cooldowns := [0, 0, 0]
    cooldown_ms := 0
    intent_tx := some ⟨1, []⟩
    dropped_intents := 0
    emitted_intents := 0
    gate_block_count := 0
    cooldown_block_count := 0 }

/-- Trigger tick on the given symbol for the backpressure fixture. -/
def trigTick (i : Nat) : TradeTick := ⟨i, 110, 1500⟩

/-- State after feeding the three distinct-symbol trigger ticks of the
queue-backpressure scenario. -/
def hpBackpressureFinal : HotPath :=
  ((((hpBackpressure.process_tick (trigTick 0)).1).process_tick (trigTick 1)).1.process_tick
    (trigTick 2)).1

/-- Fixture ring for the windowed-return counterexample: two stored points,
one before the window and one after the query time. -/
def staleRing : PriceSnapshot := ⟨[⟨100, 10⟩, ⟨200, 200000⟩], 0, 2, 60000, none, none⟩

/-- Fixture hot path for the cooldown-spacing scenario: 100 ms cooldown and a
roomy channel. -/
def hpCooldown : HotPath := { hpBackpressure with cooldown_ms := 100, intent_tx := some ⟨5, []⟩ }

/-- Fixture system for the cooldown-spacing scenario. -/
def sysCooldown : System := { hp := hpCooldown, sim := (ExecutionMock.new 5 0 0).1 }

/-- Two triggering ticks on symbol 0 spaced exactly one cooldown apart. -/
def opsCooldown : List SysOp := [SysOp.tick ⟨0, 110, 1500⟩, SysOp.tick ⟨0, 110, 1600⟩]

/-- Inductive invariant tying the simulator counters to the hot-path
emissions: the event sender is present, the three counters move in lockstep,
and `submitted_count` plus the pending intents equals `emitted_intents`. -/
def CounterInv (s : System) : Prop :=
  s.sim.event_tx.isSome = true ∧
  s.sim.fill_count = s.sim.submitted_count ∧
  s.sim.ack_count = s.sim.submitted_count ∧
  ∀ ch : BChannel OrderIntent, s.hp.intent_tx = some ch →
    s.sim.submitted_count + ch.queue.length = s.hp.emitted_intents

/-- Fixture pipeline for the counter-ordering witness: one symbol, 5 percent
threshold, 1 s window, no cooldown, budget 5, intents capacity 4. -/
def sysPipeline : System := mkSystem 1 5 1 10 0 5 4 0 0

/-- Fixture trace: two maintenance appends, one triggering tick, one
simulator step that drains the single emitted intent. -/
def opsPipeline : List SysOp :=
  [SysOp.updateSnap 0 100 500, SysOp.updateSnap 0 110 900,
   SysOp.tick ⟨0, 110, 900⟩, SysOp.simStep]

/-! ## Helper lemmas -/

/-- `try_emit_intent` never touches the snapshot cells. -/
theorem try_emit_intent_snapshots (hp : HotPath) (t : TradeTick) :
    (hp.try_emit_intent t).snapshots = hp.snapshots := by
  unfold HotPath.try_emit_intent
  rcases hp.intent_tx with _ | ch
  · rfl
  · dsimp only
    split
    · rfl
    · split
      · rfl
      · split
        · rfl
        · split
          · rfl
          · split <;> rename_i heq <;> simp

/-! ## Claims -/

/-- C8: while `can_buy` is false, processing any tick returns no trigger and
leaves the entire hot-path state — in particular all four gate counters —
unchanged: the flag is checked before anything else. -/
theorem process_tick_killswitch_inert (hp : HotPath) (t : TradeTick)
    (h : hp.can_buy = false) : hp.process_tick t = (hp, none) := by
  simp [HotPath.process_tick, h]

/-- Witness for `process_tick_killswitch_inert` at a concrete toggled-off
state. -/
theorem process_tick_killswitch_inert_witness :
    (hpBackpressure.set_can_buy false).process_tick (trigTick 0) =
      (hpBackpressure.set_can_buy false, none) :=
  process_tick_killswitch_inert _ _ rfl

/-- C9: `decrement_open_intents` is a saturating decrement on the u32
`open_intents`: a positive value drops by one, zero stays zero (the wrapping
`fetch_sub` is compensated by the `fetch_add`). -/
theorem decrement_open_intents_saturating (hp : HotPath) (h : hp.open_intents < U32) :
    (hp.open_intents = 0 → hp.decrement_open_intents.open_intents = 0) ∧
    (0 < hp.open_intents → hp.decrement_open_intents.open_intents = hp.open_intents - 1) := by
  have h32 : U32 = 4294967296 := by norm_num [U32]
  rw [h32] at h
  constructor
  · intro h0
    simp [HotPath.decrement_open_intents, h0, h32]
  · intro hpos
    have hne : ¬ hp.open_intents = 0 := by omega
    simp only [HotPath.decrement_open_intents, hne, if_false, h32]
    omega

/-- Witness for `decrement_open_intents_saturating`: value 3 drops to 2,
value 0 stays 0. -/
theorem decrement_open_intents_saturating_witness :
    ({ hpBackpressure with open_intents := 3 } : HotPath).decrement_open_intents.open_intents = 2 ∧
    hpBackpressure.decrement_open_intents.open_intents = 0 := by
  refine ⟨?_, ?_⟩
  · have h := decrement_open_intents_saturating { hpBackpressure with open_intents := 3 }
      (by norm_num [U32])
    simpa using h.2 (by norm_num)
  · have h := decrement_open_intents_saturating hpBackpressure
      (by norm_num [hpBackpressure, U32])
    simpa using h.1 rfl

/-- C10: `process_tick` never modifies any price ring; `update_snapshot` and
`update_aggregates` replace only the ring of the given symbol when it is in
range and are no-ops on out-of-range symbols. -/
theorem snapshot_frame_conditions :
    (∀ (hp : HotPath) (t : TradeTick), ((hp.process_tick t).1).snapshots = hp.snapshots)
  ∧ (∀ (hp : HotPath) (sym px ts j : Nat), j ≠ sym →
      (hp.update_snapshot sym px ts).snapshots[j]? = hp.snapshots[j]?)
  ∧ (∀ (hp : HotPath) (sym px ts : Nat), hp.max_symbols ≤ sym →
      hp.update_snapshot sym px ts = hp)
  ∧ (∀ (hp : HotPath) (sym ts j : Nat), j ≠ sym →
      (hp.update_aggregates sym ts).snapshots[j]? = hp.snapshots[j]?)
  ∧ (∀ (hp : HotPath) (sym ts : Nat), hp.max_symbols ≤ sym →
      hp.update_aggregates sym ts = hp) := by
  refine ⟨?_, ?_, ?_, ?_, ?_⟩
  · intro hp t
    unfold HotPath.process_tick
    split
    · rfl
    · dsimp only
      split
      · split
        · exact try_emit_intent_snapshots hp t
        · rfl
      · rfl
  · intro hp sym px ts j hj
    unfold HotPath.update_snapshot
    split
    · simp [List.getElem?_set_ne (Ne.symm hj)]
    · rfl
  · intro hp sym px ts h
    simp [HotPath.update_snapshot, Nat.not_lt.2 h]
  · intro hp sym ts j hj
    unfold HotPath.update_aggregates
    split
    · simp [List.getElem?_set_ne (Ne.symm hj)]
    · rfl
  · intro hp sym ts h
    simp [HotPath.update_aggregates, Nat.not_lt.2 h]

/-- Witness for `snapshot_frame_conditions` on concrete states. -/
theorem snapshot_frame_conditions_witness :
    (hpBackpressure.update_snapshot 1 123 456).snapshots[0]? = hpBackpressure.snapshots[0]? ∧
    hpBackpressure.update_snapshot 7 123 456 = hpBackpressure := by
  exact ⟨snapshot_frame_conditions.2.1 hpBackpressure 1 123 456 0 (by norm_num),
    snapshot_frame_conditions.2.2.1 hpBackpressure 7 123 456 (by norm_num [hpBackpressure])⟩

/-- C6: with the cooldown expired and `budget = 0`, the gate rejects by
incrementing `gate_block_count` — whatever the open-intents occupancy is —
and sends no intent, consumes no budget, stamps no cooldown. -/
theorem gate_budget_rejection (hp : HotPath) (t : TradeTick) (ch : BChannel OrderIntent)
    (htx : hp.intent_tx = some ch)
    (hin : t.symbol_id < hp.max_symbols)
    (hcool : ¬ t.ts_unix_ms < (hp.cooldowns.getD t.symbol_id 0 + hp.cooldown_ms) % U64)
    (hbud : hp.budget = 0) :
    hp.try_emit_intent t = { hp with gate_block_count := hp.gate_block_count + 1 } := by
  unfold HotPath.try_emit_intent
  rw [htx]
  dsimp only
  rw [if_neg (Nat.not_le.2 hin), if_neg hcool, if_pos hbud]

/-- Witness for `gate_budget_rejection` at a concrete zero-budget state. -/
theorem gate_budget_rejection_witness :
    ({ hpBackpressure with budget := 0 } : HotPath).try_emit_intent (trigTick 0) =
      { hpBackpressure with budget := 0, gate_block_count := 1 } := by
  have h := gate_budget_rejection { hpBackpressure with budget := 0 } (trigTick 0) ⟨1, []⟩
    rfl (by norm_num [hpBackpressure, trigTick])
    (by norm_num [hpBackpressure, trigTick, U64]) rfl
  simpa [hpBackpressure] using h

/-- C7: consuming one intent produces the three events Submitted, Ack, Fill
in that order, bumps the three counters by one each, and derives every event
timestamp from the intent timestamp plus the configured offsets (the delays
in microseconds, divided by 1000 to milliseconds): Submitted carries the
intent timestamp, Ack adds `ack_delay_us / 1000`, Fill adds
`fill_delay_us / 1000` more. -/
theorem process_intent_lifecycle (m : ExecutionMock) (tx : BChannel OrderEvent)
    (intent : OrderIntent)
    (htx : m.event_tx = some tx)
    (hack : intent.ts_unix_ms + m.ack_delay_us / 1000 < U64)
    (hfill : intent.ts_unix_ms + m.ack_delay_us / 1000 + m.fill_delay_us / 1000 < U64) :
    (m.process_intent intent).2.2 =
      [⟨OrderEventKind.Submitted, intent.symbol_id, intent.px_e8, intent.ts_unix_ms⟩,
       ⟨OrderEventKind.Ack, intent.symbol_id, intent.px_e8,
         intent.ts_unix_ms + m.ack_delay_us / 1000⟩,
       ⟨OrderEventKind.Fill, intent.symbol_id, intent.px_e8,
         intent.ts_unix_ms + m.ack_delay_us / 1000 + m.fill_delay_us / 1000⟩] ∧
    (m.process_intent intent).2.1 = true ∧
    (m.process_intent intent).1.submitted_count = m.submitted_count + 1 ∧
    (m.process_intent intent).1.ack_count = m.ack_count + 1 ∧
    (m.process_intent intent).1.fill_count = m.fill_count + 1 := by
  unfold ExecutionMock.process_intent
  rw [htx]
  simp [OrderEvent.new, Nat.mod_eq_of_lt hack, Nat.mod_eq_of_lt hfill]

/-- Witness for `process_intent_lifecycle`: a 2500 µs ack delay and 7500 µs
fill delay shift the timestamps by 2 ms and 7 ms. -/
theorem process_intent_lifecycle_witness :
    ((ExecutionMock.new 4 2500 7500).1.process_intent
        (OrderIntent.new 7 OrderSide.Buy 100 1000)).2.2 =
      [⟨OrderEventKind.Submitted, 7, 100, 1000⟩,
       ⟨OrderEventKind.Ack, 7, 100, 1002⟩,
       ⟨OrderEventKind.Fill, 7, 100, 1009⟩] := by
  have h := process_intent_lifecycle (ExecutionMock.new 4 2500 7500).1 ⟨8, []⟩
    (OrderIntent.new 7 OrderSide.Buy 100 1000) rfl
    (by norm_num [ExecutionMock.new, OrderIntent.new, U64])
    (by norm_num [ExecutionMock.new, OrderIntent.new, U64])
  simpa [ExecutionMock.new, OrderIntent.new] using h.1

/-- C1 counterexample: in the queue-backpressure scenario (intents channel of
capacity 1, paused consumer, three no-cooldown triggers on distinct symbols)
the code admits and emits only the first trigger — `emitted_intents = 1` and
`dropped_intents = 2`, not `emitted_intents = 3` — because the counters,
budget and cooldown stamp are updated only on a successful send: the first
tick fills the queue and leaves `budget = 9`, only symbol 0 stamped. -/
theorem backpressure_drop_uncharged_cex :
    hpBackpressureFinal.emitted_intents = 1 ∧ hpBackpressureFinal.dropped_intents = 2 ∧
    hpBackpressureFinal.budget = 9 ∧
    hpBackpressureFinal.cooldowns = [1500, 0, 0] := by
  norm_num [hpBackpressureFinal, hpBackpressure, trigTick, trigRing, HotPath.process_tick,
    HotPath.try_emit_intent, PriceSnapshot.compute_return_60s, PriceSnapshot.returnWithCutoff,
    scanStep, scanInit, BChannel.try_send, OrderIntent.new, U64, U32]

/-- C1 amended: when a trigger passes all gate checks but the intents channel
is full, only `dropped_intents` advances; the admit is not charged — budget,
cooldown stamp, `open_intents` and `emitted_intents` are all updated only on
a successful send and stay unchanged on the drop. -/
theorem queue_full_drop_only_counts (hp : HotPath) (t : TradeTick) (ch : BChannel OrderIntent)
    (htx : hp.intent_tx = some ch)
    (hin : t.symbol_id < hp.max_symbols)
    (hcool : ¬ t.ts_unix_ms < (hp.cooldowns.getD t.symbol_id 0 + hp.cooldown_ms) % U64)
    (hbud : hp.budget ≠ 0)
    (hopen : hp.open_intents < hp.max_open_intents)
    (hfull : ch.capacity ≤ ch.queue.length) :
    hp.try_emit_intent t = { hp with dropped_intents := hp.dropped_intents + 1 } := by
  unfold HotPath.try_emit_intent BChannel.try_send
  rw [htx]
  dsimp only
  rw [if_neg (Nat.not_le.2 hin), if_neg hcool, if_neg hbud,
    if_neg (Nat.not_le.2 hopen), if_neg (Nat.not_lt.2 hfull)]

/-- Witness for `queue_full_drop_only_counts`: a full capacity-1 channel turns
a fully admitted trigger into a pure `dropped_intents` bump. -/
theorem queue_full_drop_only_counts_witness :
    ({ hpBackpressure with
        intent_tx := some ⟨1, [OrderIntent.new 0 OrderSide.Buy 110 1500]⟩ } : HotPath).try_emit_intent
      (trigTick 1) =
    { hpBackpressure with
      intent_tx := some ⟨1, [OrderIntent.new 0 OrderSide.Buy 110 1500]⟩
      dropped_intents := 1 } := by
  have h := queue_full_drop_only_counts
    { hpBackpressure with intent_tx := some ⟨1, [OrderIntent.new 0 OrderSide.Buy 110 1500]⟩ }
    (trigTick 1) ⟨1, [OrderIntent.new 0 OrderSide.Buy 110 1500]⟩ rfl
    (by norm_num [hpBackpressure, trigTick])
    (by norm_num [hpBackpressure, trigTick, U64])
    (by norm_num [hpBackpressure])
    (by norm_num [hpBackpressure])
    (by norm_num)
  simpa [hpBackpressure] using h

/-- C2 counterexample: `staleRing` stores two points, one older than the
window (`ts = 10`) and one newer than the query time (`ts = 200000`); at
`now = 100000` with a 60 s window no stored point lies inside
`[now − window, now]`, yet `compute_return_60s` returns `some 0` — the late
point is selected as both oldest and newest because the scan only filters
`ts ≥ now − window` — where the claim demands absent. -/
theorem stale_ring_return_cex :
    ((staleRing.prices.take staleRing.count).countP
        (fun p => decide (100000 - 60000 ≤ p.ts_unix_ms ∧ p.ts_unix_ms ≤ 100000)) = 0) ∧
    staleRing.compute_return_60s 100000 = some 0 := by
  refine ⟨by decide, ?_⟩
  norm_num [staleRing, PriceSnapshot.compute_return_60s, PriceSnapshot.returnWithCutoff,
    scanStep, scanInit, U64]

/-! ## Scan-loop characterisation (towards the windowed-return claim) -/

/-- The guarded loop body is the unguarded body behind the window test. -/
theorem scanStep_eq (c : Nat) (acc : ScanAcc) (p : PricePoint) :
    scanStep c acc p = if c ≤ p.ts_unix_ms then scanUpd acc p else acc := rfl

/-- Folding the guarded body over a list is folding the unguarded body over
the eligible sublist. -/
theorem foldl_scanStep_eq_filter (c : Nat) (l : List PricePoint) (acc : ScanAcc) :
    l.foldl (scanStep c) acc = (l.filter fun p => c ≤ p.ts_unix_ms).foldl scanUpd acc := by
  induction l generalizing acc with
  | nil => rfl
  | cons p ps ih =>
    simp only [List.foldl_cons, List.filter_cons]
    by_cases h : c ≤ p.ts_unix_ms
    · simp [scanStep_eq, h, ih]
    · simp [scanStep_eq, h, ih]

/-- The oldest track of the unguarded body is `oldStep`. -/
theorem scanUpd_oldest (acc : ScanAcc) (p : PricePoint) :
    ((scanUpd acc p).oldest_price, (scanUpd acc p).oldest_ts) =
      oldStep (acc.oldest_price, acc.oldest_ts) p := by
  unfold scanUpd oldStep
  dsimp only
  split <;> split <;> rfl

/-- The newest track of the unguarded body is `newStep`. -/
theorem scanUpd_newest (acc : ScanAcc) (p : PricePoint) :
    ((scanUpd acc p).newest_price, (scanUpd acc p).newest_ts) =
      newStep (acc.newest_price, acc.newest_ts) p := by
  unfold scanUpd newStep
  dsimp only
  split <;> split <;> rfl

/-- The two tracks of the scan run independently. -/
theorem foldl_scanUpd_split (l : List PricePoint) (acc : ScanAcc) :
    l.foldl scanUpd acc =
      ⟨(l.foldl oldStep (acc.oldest_price, acc.oldest_ts)).1,
       (l.foldl oldStep (acc.oldest_price, acc.oldest_ts)).2,
       (l.foldl newStep (acc.newest_price, acc.newest_ts)).1,
       (l.foldl newStep (acc.newest_price, acc.newest_ts)).2⟩ := by
  induction l generalizing acc with
  | nil => rfl
  | cons p ps ih =>
    simp only [List.foldl_cons]
    rw [ih, scanUpd_oldest, scanUpd_newest]

/-- Closed form of the oldest track: `bestBelow`. -/
theorem foldl_oldStep_eq (l : List PricePoint) (op : Option Nat) (ots : Nat) :
    l.foldl oldStep (op, ots) =
      (match bestBelow ots l with
       | none => (op, ots)
       | some q => (some q.px_e8, q.ts_unix_ms)) := by
  induction l generalizing op ots with
  | nil => rfl
  | cons p ps ih =>
    simp only [List.foldl_cons, bestBelow, oldStep]
    by_cases h : p.ts_unix_ms < ots
    · simp only [h, if_true, ih]
      cases hb : bestBelow p.ts_unix_ms ps <;> simp [hb]
    · simp only [h, if_false, ih]

/-- Closed form of the newest track: `bestAbove`. -/
theorem foldl_newStep_eq (l : List PricePoint) (np : Option Nat) (nts : Nat) :
    l.foldl newStep (np, nts) =
      (match bestAbove nts l with
       | none => (np, nts)
       | some q => (some q.px_e8, q.ts_unix_ms)) := by
  induction l generalizing np nts with
  | nil => rfl
  | cons p ps ih =>
    simp only [List.foldl_cons, bestAbove, newStep]
    by_cases h : nts < p.ts_unix_ms
    · simp only [h, if_true, ih]
      cases hb : bestAbove p.ts_unix_ms ps <;> simp [hb]
    · simp only [h, if_false, ih]

/-- Tightening the strict upper bound of the filtered first-minimum. -/
theorem firstMin_filter_lt (l : List PricePoint) (a b : Nat) (hab : a ≤ b) :
    firstMinTs (l.filter fun p => p.ts_unix_ms < a) =
      (match firstMinTs (l.filter fun p => p.ts_unix_ms < b) with
       | none => none
       | some q => if q.ts_unix_ms < a then some q else none) := by
  induction l with
  | nil => rfl
  | cons p ps ih =>
    by_cases ha : p.ts_unix_ms < a
    · have hb : p.ts_unix_ms < b := lt_of_lt_of_le ha hab
      have e1 : (p :: ps).filter (fun q => q.ts_unix_ms < a) =
          p :: ps.filter (fun q => q.ts_unix_ms < a) := by simp [ha]
      have e2 : (p :: ps).filter (fun q => q.ts_unix_ms < b) =
          p :: ps.filter (fun q => q.ts_unix_ms < b) := by simp [hb]
      rw [e1, e2]
      simp only [firstMinTs]
      rw [ih]
      cases hq : firstMinTs (ps.filter fun q => q.ts_unix_ms < b) with
      | none => simp [ha]
      | some q =>
        by_cases hqa : q.ts_unix_ms < a
        · by_cases hqp : q.ts_unix_ms < p.ts_unix_ms <;> simp [hqa, hqp, ha]
        · have hqp : ¬ q.ts_unix_ms < p.ts_unix_ms := by omega
          simp [hqa, hqp, ha]
    · by_cases hb : p.ts_unix_ms < b
      · have e1 : (p :: ps).filter (fun q => q.ts_unix_ms < a) =
            ps.filter (fun q => q.ts_unix_ms < a) := by simp [ha]
        have e2 : (p :: ps).filter (fun q => q.ts_unix_ms < b) =
            p :: ps.filter (fun q => q.ts_unix_ms < b) := by simp [hb]
        rw [e1, e2]
        simp only [firstMinTs]
        rw [ih]
        cases hq : firstMinTs (ps.filter fun q => q.ts_unix_ms < b) with
        | none => simp [ha]
        | some q =>
          by_cases hqp : q.ts_unix_ms < p.ts_unix_ms
          · simp [hqp]
          · have hqa : ¬ q.ts_unix_ms < a := by omega
            simp [hqp, hqa, ha]
      · have e1 : (p :: ps).filter (fun q => q.ts_unix_ms < a) =
            ps.filter (fun q => q.ts_unix_ms < a) := by simp [ha]
        have e2 : (p :: ps).filter (fun q => q.ts_unix_ms < b) =
            ps.filter (fun q => q.ts_unix_ms < b) := by simp [hb]
        rw [e1, e2, ih]

/-- Widening the strict lower bound of the filtered first-maximum. -/
theorem firstMax_filter_gt (l : List PricePoint) (a b : Nat) (hab : b ≤ a) :
    firstMaxTs (l.filter fun p => a < p.ts_unix_ms) =
      (match firstMaxTs (l.filter fun p => b < p.ts_unix_ms) with
       | none => none
       | some q => if a < q.ts_unix_ms then some q else none) := by
  induction l with
  | nil => rfl
  | cons p ps ih =>
    by_cases ha : a < p.ts_unix_ms
    · have hb : b < p.ts_unix_ms := lt_of_le_of_lt hab ha
      have e1 : (p :: ps).filter (fun q => a < q.ts_unix_ms) =
          p :: ps.filter (fun q => a < q.ts_unix_ms) := by simp [ha]
      have e2 : (p :: ps).filter (fun q => b < q.ts_unix_ms) =
          p :: ps.filter (fun q => b < q.ts_unix_ms) := by simp [hb]
      rw [e1, e2]
      simp only [firstMaxTs]
      rw [ih]
      cases hq : firstMaxTs (ps.filter fun q => b < q.ts_unix_ms) with
      | none => simp [ha]
      | some q =>
        by_cases hqa : a < q.ts_unix_ms
        · by_cases hqp : p.ts_unix_ms < q.ts_unix_ms <;> simp [hqa, hqp, ha]
        · have hqp : ¬ p.ts_unix_ms < q.ts_unix_ms := by omega
          simp [hqa, hqp, ha]
    · by_cases hb : b < p.ts_unix_ms
      · have e1 : (p :: ps).filter (fun q => a < q.ts_unix_ms) =
            ps.filter (fun q => a < q.ts_unix_ms) := by simp [ha]
        have e2 : (p :: ps).filter (fun q => b < q.ts_unix_ms) =
            p :: ps.filter (fun q => b < q.ts_unix_ms) := by simp [hb]
        rw [e1, e2]
        simp only [firstMaxTs]
        rw [ih]
        cases hq : firstMaxTs (ps.filter fun q => b < q.ts_unix_ms) with
        | none => simp [ha]
        | some q =>
          by_cases hqp : p.ts_unix_ms < q.ts_unix_ms
          · simp [hqp]
          · have hqa : ¬ a < q.ts_unix_ms := by omega
            simp [hqp, hqa, ha]
      · have e1 : (p :: ps).filter (fun q => a < q.ts_unix_ms) =
            ps.filter (fun q => a < q.ts_unix_ms) := by simp [ha]
        have e2 : (p :: ps).filter (fun q => b < q.ts_unix_ms) =
            ps.filter (fun q => b < q.ts_unix_ms) := by simp [hb]
        rw [e1, e2, ih]

/-- The strictly-descending selection chain of the loop lands on the first
point of minimal timestamp below the starting bound. -/
theorem bestBelow_eq_firstMin (l : List PricePoint) (b : Nat) :
    bestBelow b l = firstMinTs (l.filter fun p => p.ts_unix_ms < b) := by
  induction l generalizing b with
  | nil => rfl
  | cons p ps ih =>
    by_cases h : p.ts_unix_ms < b
    · simp only [bestBelow, h, if_true, List.filter_cons, decide_True, firstMinTs, ih]
      rw [firstMin_filter_lt ps p.ts_unix_ms b (le_of_lt h)]
      cases hq : firstMinTs (ps.filter fun p => p.ts_unix_ms < b) with
      | none => simp
      | some q => by_cases hqp : q.ts_unix_ms < p.ts_unix_ms <;> simp [hqp]
    · simp [bestBelow, h, ih]

/-- The strictly-ascending selection chain of the loop lands on the first
point of maximal timestamp above the starting bound. -/
theorem bestAbove_eq_firstMax (l : List PricePoint) (b : Nat) :
    bestAbove b l = firstMaxTs (l.filter fun p => b < p.ts_unix_ms) := by
  induction l generalizing b with
  | nil => rfl
  | cons p ps ih =>
    by_cases h : b < p.ts_unix_ms
    · simp only [bestAbove, h, if_true, List.filter_cons, decide_True, firstMaxTs, ih]
      rw [firstMax_filter_gt ps p.ts_unix_ms b (le_of_lt h)]
      cases hq : firstMaxTs (ps.filter fun p => b < p.ts_unix_ms) with
      | none => simp
      | some q => by_cases hqp : p.ts_unix_ms < q.ts_unix_ms <;> simp [hqp]
    · simp [bestAbove, h, ih]

/-- The first-minimum selection is empty exactly on the empty list. -/
theorem firstMinTs_eq_none {l : List PricePoint} : firstMinTs l = none ↔ l = [] := by
  cases l with
  | nil => simp [firstMinTs]
  | cons p ps =>
    simp only [firstMinTs]
    cases firstMinTs ps with
    | none => simp
    | some q =>
      have hne : (if q.ts_unix_ms < p.ts_unix_ms then some q else some p) ≠ none := by
        split <;> simp
      simp [hne]

/-- The first-maximum selection is empty exactly on the empty list. -/
theorem firstMaxTs_eq_none {l : List PricePoint} : firstMaxTs l = none ↔ l = [] := by
  cases l with
  | nil => simp [firstMaxTs]
  | cons p ps =>
    simp only [firstMaxTs]
    cases firstMaxTs ps with
    | none => simp
    | some q =>
      have hne : (if p.ts_unix_ms < q.ts_unix_ms then some q else some p) ≠ none := by
        split <;> simp
      simp [hne]

/-- C2 amended: the scan filters stored points only from below
(`ts ≥ now − window`, with no `ts ≤ now` upper bound) and picks the oldest
and the newest of the filtered points by timestamp (first occurrence on
ties); the result is absent exactly when fewer than two points are stored,
no stored point passes the filter, or the oldest filtered price is zero —
one single filtered point serves as both oldest and newest (return 0), and a
ring holding a single point yields absent.  Stated for rings whose stored
points carry realistic timestamps (positive and below `u64::MAX`, the two
loop sentinels). -/
theorem compute_return_60s_selected (s : PriceSnapshot) (current_ts_ms : Nat)
    (hts : ∀ p ∈ s.prices.take s.count, 0 < p.ts_unix_ms ∧ p.ts_unix_ms < U64 - 1) :
    s.compute_return_60s current_ts_ms = s.selectedReturn current_ts_ms ∧
    (s.count < 2 → s.compute_return_60s current_ts_ms = none) := by
  refine ⟨?_, fun h => by simp [PriceSnapshot.compute_return_60s, h]⟩
  unfold PriceSnapshot.compute_return_60s PriceSnapshot.selectedReturn
  by_cases h2 : s.count < 2
  · simp [h2]
  · simp only [h2, if_false]
    unfold PriceSnapshot.returnWithCutoff
    rw [foldl_scanStep_eq_filter]
    rw [foldl_scanUpd_split]
    simp only [scanInit]
    rw [foldl_oldStep_eq, foldl_newStep_eq, bestBelow_eq_firstMin, bestAbove_eq_firstMax]
    have hmem : ∀ p ∈ (s.prices.take s.count).filter
        (fun p => current_ts_ms - s.window_ms ≤ p.ts_unix_ms),
        0 < p.ts_unix_ms ∧ p.ts_unix_ms < U64 - 1 :=
      fun p hp => hts p (List.mem_of_mem_filter hp)
    have ef1 : ((s.prices.take s.count).filter
          (fun p => current_ts_ms - s.window_ms ≤ p.ts_unix_ms)).filter
          (fun p => p.ts_unix_ms < U64 - 1) =
        (s.prices.take s.count).filter
          (fun p => current_ts_ms - s.window_ms ≤ p.ts_unix_ms) :=
      List.filter_eq_self.mpr (fun p hp => by simpa using (hmem p hp).2)
    have ef2 : ((s.prices.take s.count).filter
          (fun p => current_ts_ms - s.window_ms ≤ p.ts_unix_ms)).filter
          (fun p => 0 < p.ts_unix_ms) =
        (s.prices.take s.count).filter
          (fun p => current_ts_ms - s.window_ms ≤ p.ts_unix_ms) :=
      List.filter_eq_self.mpr (fun p hp => by simpa using (hmem p hp).1)
    rw [ef1, ef2]
    cases hmin : firstMinTs ((s.prices.take s.count).filter
        (fun p => current_ts_ms - s.window_ms ≤ p.ts_unix_ms)) with
    | none =>
      have he := firstMinTs_eq_none.mp hmin
      rw [he]
    | some q =>
      cases hmax : firstMaxTs ((s.prices.take s.count).filter
          (fun p => current_ts_ms - s.window_ms ≤ p.ts_unix_ms)) with
      | none =>
        have hc : firstMinTs ((s.prices.take s.count).filter
            (fun p => current_ts_ms - s.window_ms ≤ p.ts_unix_ms)) = none :=
          firstMinTs_eq_none.mpr (firstMaxTs_eq_none.mp hmax)
        rw [hmin] at hc
      | some r => rfl

/-- Witness for `compute_return_60s_selected`: on a two-point in-window ring
the scan and the declarative selection agree and yield the 10 percent
return. -/
theorem compute_return_60s_selected_witness :
    trigRing.compute_return_60s 1500 = trigRing.selectedReturn 1500 ∧
    trigRing.compute_return_60s 1500 = some 10 := by
  have h := compute_return_60s_selected trigRing 1500 (by decide)
  refine ⟨h.1, ?_⟩
  norm_num [trigRing, PriceSnapshot.compute_return_60s, PriceSnapshot.returnWithCutoff,
    scanStep, scanInit, U64]

/-! ## Step-effect lemmas for traces -/

/-- Unpacking of the trigger condition. -/
theorem tickTriggers_elim (hp : HotPath) (t : TradeTick) (h : hp.tickTriggers t = true) :
    hp.can_buy = true ∧ t.symbol_id < hp.max_symbols ∧
    ∃ r : ℚ, (hp.snapshots.getD t.symbol_id default).compute_return_60s t.ts_unix_ms = some r ∧
      hp.threshold_pct ≤ r := by
  unfold HotPath.tickTriggers at h
  cases hret : (hp.snapshots.getD t.symbol_id default).compute_return_60s t.ts_unix_ms with
  | none => rw [hret] at h; simp at h
  | some r =>
    rw [hret] at h
    simp only [Bool.and_eq_true, decide_eq_true_eq] at h
    exact ⟨h.1.1, h.1.2, r, rfl, h.2⟩

/-- A triggering tick hands the state to the emission attempt. -/
theorem process_tick_fst_of_triggers (hp : HotPath) (t : TradeTick)
    (h : hp.tickTriggers t = true) : (hp.process_tick t).1 = hp.try_emit_intent t := by
  obtain ⟨h1, h2, r, hret, hle⟩ := tickTriggers_elim hp t h
  unfold HotPath.process_tick
  rw [if_neg (by simp [h1, Nat.not_le.2 h2])]
  dsimp only
  rw [hret]
  dsimp only
  rw [if_pos hle]

/-- A non-triggering tick leaves the whole state untouched. -/
theorem process_tick_of_not_triggers (hp : HotPath) (t : TradeTick)
    (h : hp.tickTriggers t = false) : hp.process_tick t = (hp, none) := by
  unfold HotPath.process_tick
  by_cases hc : ¬ hp.can_buy ∨ hp.max_symbols ≤ t.symbol_id
  · rw [if_pos hc]
  · rw [if_neg hc]
    push_neg at hc
    dsimp only
    cases hret : (hp.snapshots.getD t.symbol_id default).compute_return_60s t.ts_unix_ms with
    | none => rfl
    | some r =>
      have hnle : ¬ hp.threshold_pct ≤ r := by
        intro hle
        have htr : hp.tickTriggers t = true := by
          unfold HotPath.tickTriggers
          rw [hret]
          simp [hc.1, hc.2, hle]
        rw [htr] at h
        cases h
      dsimp only
      rw [if_neg hnle]

/-- Either a tick leaves the state untouched or it runs the emission
attempt. -/
theorem process_tick_fst_cases (hp : HotPath) (t : TradeTick) :
    (hp.process_tick t).1 = hp ∨ (hp.process_tick t).1 = hp.try_emit_intent t := by
  by_cases h : hp.tickTriggers t = true
  · exact Or.inr (by rw [process_tick_fst_of_triggers hp t h])
  · exact Or.inl (by rw [process_tick_of_not_triggers hp t (by simpa using h)])

/-- Fields the emission attempt never writes. -/
theorem try_emit_intent_frame (hp : HotPath) (t : TradeTick) :
    (hp.try_emit_intent t).can_buy = hp.can_buy ∧
    (hp.try_emit_intent t).threshold_pct = hp.threshold_pct ∧
    (hp.try_emit_intent t).max_symbols = hp.max_symbols ∧
    (hp.try_emit_intent t).max_open_intents = hp.max_open_intents ∧
    (hp.try_emit_intent t).cooldown_ms = hp.cooldown_ms ∧
    (hp.try_emit_intent t).cooldowns.length = hp.cooldowns.length := by
  unfold HotPath.try_emit_intent
  rcases hp.intent_tx with _ | ch
  · exact ⟨rfl, rfl, rfl, rfl, rfl, rfl⟩
  · dsimp only
    split
    · exact ⟨rfl, rfl, rfl, rfl, rfl, rfl⟩
    · split
      · exact ⟨rfl, rfl, rfl, rfl, rfl, rfl⟩
      · split
        · exact ⟨rfl, rfl, rfl, rfl, rfl, rfl⟩
        · split
          · exact ⟨rfl, rfl, rfl, rfl, rfl, rfl⟩
          · split
            · exact ⟨rfl, rfl, rfl, rfl, rfl, by simp⟩
            · exact ⟨rfl, rfl, rfl, rfl, rfl, rfl⟩

/-- Emission-attempt effect when the tick fully emits. -/
theorem try_emit_of_emits (hp : HotPath) (t : TradeTick) (h : hp.tickEmits t = true) :
    ∃ ch : BChannel OrderIntent, hp.intent_tx = some ch ∧
      ch.queue.length < ch.capacity ∧
      hp.try_emit_intent t =
        { hp with
          intent_tx := some { ch with queue :=
            ch.queue ++ [OrderIntent.new t.symbol_id OrderSide.Buy t.px_e8 t.ts_unix_ms] }
          emitted_intents := hp.emitted_intents + 1
          open_intents := (hp.open_intents + 1) % U32
          budget := hp.budget - 1
          cooldowns := hp.cooldowns.set t.symbol_id t.ts_unix_ms } := by
  unfold HotPath.tickEmits at h
  cases htx : hp.intent_tx with
  | none => rw [htx] at h; simp at h
  | some ch =>
    rw [htx] at h
    dsimp only at h
    simp only [Bool.and_eq_true, Bool.not_eq_true', decide_eq_true_eq, decide_eq_false_iff_not,
      ne_eq] at h
    obtain ⟨htrig, ⟨⟨hcool, hbud⟩, hopen⟩, hroom⟩ := h
    have hin := (tickTriggers_elim hp t htrig).2.1
    refine ⟨ch, rfl, hroom, ?_⟩
    unfold HotPath.try_emit_intent BChannel.try_send
    rw [htx]
    dsimp only
    rw [if_neg (Nat.not_le.2 hin), if_neg hcool, if_neg hbud,
      if_neg (Nat.not_le.2 hopen), if_pos hroom]

/-- A tick that does not fully emit leaves channel, emission counter and
cooldown stamps as they were. -/
theorem process_tick_of_not_emits (hp : HotPath) (t : TradeTick) (h : hp.tickEmits t = false) :
    (hp.process_tick t).1.intent_tx = hp.intent_tx ∧
    (hp.process_tick t).1.emitted_intents = hp.emitted_intents ∧
    (hp.process_tick t).1.cooldowns = hp.cooldowns := by
  by_cases htr : hp.tickTriggers t = true
  · rw [process_tick_fst_of_triggers hp t htr]
    cases htx : hp.intent_tx with
    | none =>
      unfold HotPath.try_emit_intent
      rw [htx]
      exact ⟨htx, rfl, rfl⟩
    | some ch =>
      have hin := (tickTriggers_elim hp t htr).2.1
      unfold HotPath.try_emit_intent BChannel.try_send
      rw [htx]
      dsimp only
      rw [if_neg (Nat.not_le.2 hin)]
      by_cases hcool : t.ts_unix_ms < (hp.cooldowns.getD t.symbol_id 0 + hp.cooldown_ms) % U64
      · rw [if_pos hcool]; exact ⟨rfl, rfl, rfl⟩
      · rw [if_neg hcool]
        by_cases hbud : hp.budget = 0
        · rw [if_pos hbud]; exact ⟨rfl, rfl, rfl⟩
        · rw [if_neg hbud]
          by_cases hopen : hp.max_open_intents ≤ hp.open_intents
          · rw [if_pos hopen]; exact ⟨rfl, rfl, rfl⟩
          · rw [if_neg hopen]
            have hfull : ¬ ch.queue.length < ch.capacity := by
              intro hroom
              have hem : hp.tickEmits t = true := by
                unfold HotPath.tickEmits
                rw [htx]
                dsimp only
                rw [htr]
                simp only [Bool.true_and, Bool.and_eq_true, Bool.not_eq_true',
                  decide_eq_false_iff_not, decide_eq_true_eq, ne_eq]
                exact ⟨⟨⟨hcool, hbud⟩, Nat.lt_of_not_le hopen⟩, hroom⟩
              rw [hem] at h
              cases h
            rw [if_neg hfull]
            exact ⟨rfl, rfl, rfl⟩
  · have hf : hp.tickTriggers t = false := by simpa using htr
    rw [process_tick_of_not_triggers hp t hf]
    exact ⟨rfl, rfl, rfl⟩

/-- Reading a slot other than the written one through `getD`. -/
theorem getD_set_ne (l : List Nat) (i j v d : Nat) (h : i ≠ j) :
    (l.set i v).getD j d = l.getD j d := by
  simp [List.getD_eq_getElem?_getD, List.getElem?_set_ne h]

/-- Reading the written slot through `getD`. -/
theorem getD_set_self (l : List Nat) (i v d : Nat) (h : i < l.length) :
    (l.set i v).getD i d = v := by
  simp [List.getD_eq_getElem?_getD, List.getElem?_set_self h]

/-- The emission attempt keeps the presence of the intents sender. -/
theorem try_emit_intent_isSome (hp : HotPath) (t : TradeTick) :
    (hp.try_emit_intent t).intent_tx.isSome = hp.intent_tx.isSome := by
  unfold HotPath.try_emit_intent
  cases htx : hp.intent_tx with
  | none =>
    dsimp only
    rw [htx]
  | some ch =>
    dsimp only
    split
    · rw [htx]
    · split
      · rfl
      · split
        · rfl
        · split
          · rfl
          · split <;> rfl

/-- Every trace step keeps the presence of the intents sender. -/
theorem step_preserves_isSome (s : System) (op : SysOp)
    (h : s.hp.intent_tx.isSome = true) : (s.step op).hp.intent_tx.isSome = true := by
  cases op with
  | tick t =>
    show ((s.hp.process_tick t).1).intent_tx.isSome = true
    rcases process_tick_fst_cases s.hp t with h1 | h1 <;> rw [h1]
    · exact h
    · rw [try_emit_intent_isSome]; exact h
  | simStep =>
    unfold System.step
    dsimp only
    cases htx : s.hp.intent_tx with
    | none => exact h
    | some ch =>
      obtain ⟨cap, q⟩ := ch
      dsimp only
      cases q with
      | nil => exact h
      | cons i rest => rfl
  | feedbackStep =>
    unfold System.step
    dsimp only
    cases hev : s.sim.event_tx with
    | none => exact h
    | some ch =>
      obtain ⟨cap, q⟩ := ch
      dsimp only
      cases q with
      | nil => exact h
      | cons ev rest =>
        dsimp only
        split
        · show (s.hp.decrement_open_intents).intent_tx.isSome = true
          unfold HotPath.decrement_open_intents
          dsimp only
          split <;> exact h
        · exact h
  | replenish n => exact h
  | setCanBuy b => exact h
  | updateSnap sym px ts =>
    show (s.hp.update_snapshot sym px ts).intent_tx.isSome = true
    unfold HotPath.update_snapshot
    split <;> exact h
  | updateAggs sym ts =>
    show (s.hp.update_aggregates sym ts).intent_tx.isSome = true
    unfold HotPath.update_aggregates
    split <;> exact h

/-- Non-tick steps touch neither the four gate counters nor the cooldown
stamps. -/
theorem step_counters_nonTick (s : System) (op : SysOp) (h : ∀ t, op ≠ SysOp.tick t) :
    (s.step op).hp.emitted_intents = s.hp.emitted_intents ∧
    (s.step op).hp.dropped_intents = s.hp.dropped_intents ∧
    (s.step op).hp.gate_block_count = s.hp.gate_block_count ∧
    (s.step op).hp.cooldown_block_count = s.hp.cooldown_block_count ∧
    (s.step op).hp.cooldowns = s.hp.cooldowns := by
  cases op with
  | tick t => exact absurd rfl (h t)
  | simStep =>
    unfold System.step
    dsimp only
    cases htx : s.hp.intent_tx with
    | none => exact ⟨rfl, rfl, rfl, rfl, rfl⟩
    | some ch =>
      obtain ⟨cap, q⟩ := ch
      dsimp only
      cases q with
      | nil => exact ⟨rfl, rfl, rfl, rfl, rfl⟩
      | cons i rest => exact ⟨rfl, rfl, rfl, rfl, rfl⟩
  | feedbackStep =>
    unfold System.step
    dsimp only
    cases hev : s.sim.event_tx with
    | none => exact ⟨rfl, rfl, rfl, rfl, rfl⟩
    | some ch =>
      obtain ⟨cap, q⟩ := ch
      dsimp only
      cases q with
      | nil => exact ⟨rfl, rfl, rfl, rfl, rfl⟩
      | cons ev rest =>
        dsimp only
        split
        · unfold HotPath.decrement_open_intents
          dsimp only
          split <;> exact ⟨rfl, rfl, rfl, rfl, rfl⟩
        · exact ⟨rfl, rfl, rfl, rfl, rfl⟩
  | replenish n => exact ⟨rfl, rfl, rfl, rfl, rfl⟩
  | setCanBuy b => exact ⟨rfl, rfl, rfl, rfl, rfl⟩
  | updateSnap sym px ts =>
    unfold System.step HotPath.update_snapshot
    dsimp only
    split <;> exact ⟨rfl, rfl, rfl, rfl, rfl⟩
  | updateAggs sym ts =>
    unfold System.step HotPath.update_aggregates
    dsimp only
    split <;> exact ⟨rfl, rfl, rfl, rfl, rfl⟩

/-- The gate, once reached with a sender in place, advances exactly one
counter. -/
theorem try_emit_bumps (hp : HotPath) (t : TradeTick) (ch : BChannel OrderIntent)
    (htx : hp.intent_tx = some ch) (hin : t.symbol_id < hp.max_symbols) :
    BumpsExactlyOne hp (hp.try_emit_intent t) := by
  unfold HotPath.try_emit_intent BChannel.try_send
  rw [htx]
  dsimp only
  rw [if_neg (Nat.not_le.2 hin)]
  by_cases h1 : t.ts_unix_ms < (hp.cooldowns.getD t.symbol_id 0 + hp.cooldown_ms) % U64
  · rw [if_pos h1]
    exact Or.inr (Or.inr (Or.inr ⟨rfl, rfl, rfl, rfl⟩))
  · rw [if_neg h1]
    by_cases h2 : hp.budget = 0
    · rw [if_pos h2]
      exact Or.inr (Or.inr (Or.inl ⟨rfl, rfl, rfl, rfl⟩))
    · rw [if_neg h2]
      by_cases h3 : hp.max_open_intents ≤ hp.open_intents
      · rw [if_pos h3]
        exact Or.inr (Or.inr (Or.inl ⟨rfl, rfl, rfl, rfl⟩))
      · rw [if_neg h3]
        by_cases h4 : ch.queue.length < ch.capacity
        · rw [if_pos h4]
          exact Or.inl ⟨rfl, rfl, rfl, rfl⟩
        · rw [if_neg h4]
          exact Or.inr (Or.inl ⟨rfl, rfl, rfl, rfl⟩)

/-- A single-counter bump advances the counter sum by one. -/
theorem bumps_counterSum {a b : HotPath} (h : BumpsExactlyOne a b) :
    b.counterSum = a.counterSum + 1 := by
  unfold HotPath.counterSum
  rcases h with ⟨e, d, g, c⟩ | ⟨e, d, g, c⟩ | ⟨e, d, g, c⟩ | ⟨e, d, g, c⟩ <;>
    rw [e, d, g, c] <;> omega

/-- Counter-sum effect of one processed tick. -/
theorem process_tick_counterSum (hp : HotPath) (t : TradeTick)
    (hsome : hp.intent_tx.isSome = true) :
    ((hp.process_tick t).1).counterSum =
      hp.counterSum + (if hp.tickTriggers t then 1 else 0) := by
  by_cases htr : hp.tickTriggers t = true
  · obtain ⟨ch, htx⟩ : ∃ ch, hp.intent_tx = some ch := by
      cases hc : hp.intent_tx with
      | none => rw [hc] at hsome; cases hsome
      | some ch => exact ⟨ch, rfl⟩
    have hin := (tickTriggers_elim hp t htr).2.1
    rw [process_tick_fst_of_triggers hp t htr,
      bumps_counterSum (try_emit_bumps hp t ch htx hin), htr]
    simp
  · have hf : hp.tickTriggers t = false := by simpa using htr
    rw [process_tick_of_not_triggers hp t hf, hf]
    simp

/-- Unfolding equation of `triggeredCount` on a cons. -/
theorem triggeredCount_cons (s : System) (op : SysOp) (ops : List SysOp) :
    s.triggeredCount (op :: ops) =
      (match op with
       | SysOp.tick t => if s.hp.tickTriggers t then 1 else 0
       | _ => 0) + (s.step op).triggeredCount ops := rfl

/-- Counter-sum bookkeeping along a whole trace. -/
theorem run_counterSum (s : System) (ops : List SysOp) (h : s.hp.intent_tx.isSome = true) :
    (s.run ops).hp.counterSum = s.hp.counterSum + s.triggeredCount ops := by
  induction ops generalizing s with
  | nil => simp [System.run, System.triggeredCount]
  | cons op ops ih =>
    have hpres := step_preserves_isSome s op h
    have hrun : s.run (op :: ops) = (s.step op).run ops := rfl
    rw [hrun, ih (s.step op) hpres]
    rw [triggeredCount_cons]
    cases op with
    | tick t =>
      have h1 : (s.step (SysOp.tick t)).hp = (s.hp.process_tick t).1 := rfl
      rw [h1, process_tick_counterSum s.hp t h]
      dsimp only
      generalize (if s.hp.tickTriggers t = true then 1 else 0) = k
      omega
    | simStep =>
      have h5 := step_counters_nonTick s SysOp.simStep (fun t hh => by cases hh)
      unfold HotPath.counterSum
      dsimp only
      omega
    | feedbackStep =>
      have h5 := step_counters_nonTick s SysOp.feedbackStep (fun t hh => by cases hh)
      unfold HotPath.counterSum
      dsimp only
      omega
    | replenish n =>
      have h5 := step_counters_nonTick s (SysOp.replenish n) (fun t hh => by cases hh)
      unfold HotPath.counterSum
      dsimp only
      omega
    | setCanBuy b =>
      have h5 := step_counters_nonTick s (SysOp.setCanBuy b) (fun t hh => by cases hh)
      unfold HotPath.counterSum
      dsimp only
      omega
    | updateSnap sym px ts =>
      have h5 := step_counters_nonTick s (SysOp.updateSnap sym px ts) (fun t hh => by cases hh)
      unfold HotPath.counterSum
      dsimp only
      omega
    | updateAggs sym ts =>
      have h5 := step_counters_nonTick s (SysOp.updateAggs sym ts) (fun t hh => by cases hh)
      unfold HotPath.counterSum
      dsimp only
      omega

/-- C3: with the intents sender in place, every triggering tick advances
exactly one of the four gate counters; a non-triggering tick leaves the
whole state (in particular every counter) unchanged; consequently, along any
trace from a state with a sender,
`emitted + dropped + gate_blocked + cooldown_blocked` grows by exactly the
number of triggered returns. -/
theorem gate_counter_accounting :
    (∀ (hp : HotPath) (t : TradeTick), hp.intent_tx.isSome = true →
        hp.tickTriggers t = true → BumpsExactlyOne hp (hp.process_tick t).1)
  ∧ (∀ (hp : HotPath) (t : TradeTick), hp.tickTriggers t = false →
        (hp.process_tick t).1 = hp)
  ∧ (∀ (s : System) (ops : List SysOp), s.hp.intent_tx.isSome = true →
        (s.run ops).hp.counterSum = s.hp.counterSum + s.triggeredCount ops) := by
  refine ⟨?_, ?_, ?_⟩
  · intro hp t hsome htr
    obtain ⟨ch, htx⟩ : ∃ ch, hp.intent_tx = some ch := by
      cases hc : hp.intent_tx with
      | none => rw [hc] at hsome; cases hsome
      | some ch => exact ⟨ch, rfl⟩
    rw [process_tick_fst_of_triggers hp t htr]
    exact try_emit_bumps hp t ch htx (tickTriggers_elim hp t htr).2.1
  · intro hp t h
    rw [process_tick_of_not_triggers hp t h]
  · intro s ops h
    exact run_counterSum s ops h

/-- Witness for `gate_counter_accounting`: three triggering ticks against a
capacity-1 channel partition into one emission and two drops, so the counter
sum is exactly 3. -/
theorem gate_counter_accounting_witness :
    (System.run { hp := hpBackpressure, sim := (ExecutionMock.new 1 0 0).1 }
      [SysOp.tick (trigTick 0), SysOp.tick (trigTick 1),
        SysOp.tick (trigTick 2)]).hp.counterSum = 3 := by
  have h := gate_counter_accounting.2.2
    { hp := hpBackpressure, sim := (ExecutionMock.new 1 0 0).1 }
    [SysOp.tick (trigTick 0), SysOp.tick (trigTick 1), SysOp.tick (trigTick 2)] rfl
  rw [h]
  norm_num [System.triggeredCount, System.step, HotPath.counterSum, HotPath.tickTriggers,
    hpBackpressure, trigTick, trigRing, HotPath.process_tick, HotPath.try_emit_intent,
    PriceSnapshot.compute_return_60s, PriceSnapshot.returnWithCutoff, scanStep, scanInit,
    BChannel.try_send, OrderIntent.new, U64, U32, ExecutionMock.new]

/-- A fully emitting tick in particular triggers. -/
theorem tickEmits_triggers (hp : HotPath) (t : TradeTick) (h : hp.tickEmits t = true) :
    hp.tickTriggers t = true := by
  unfold HotPath.tickEmits at h
  simp only [Bool.and_eq_true] at h
  exact h.1

/-- A fully emitting tick passed the (wrapped) cooldown deadline. -/
theorem tickEmits_cooldown_ok (hp : HotPath) (t : TradeTick) (h : hp.tickEmits t = true) :
    (hp.cooldowns.getD t.symbol_id 0 + hp.cooldown_ms) % U64 ≤ t.ts_unix_ms := by
  unfold HotPath.tickEmits at h
  cases htx : hp.intent_tx with
  | none => rw [htx] at h; simp at h
  | some ch =>
    rw [htx] at h
    dsimp only at h
    simp only [Bool.and_eq_true, Bool.not_eq_true', decide_eq_false_iff_not,
      decide_eq_true_eq, ne_eq] at h
    exact Nat.not_lt.mp h.2.1.1.1

/-- An emitting tick stamps its own timestamp into the cooldown slot of its
symbol. -/
theorem process_tick_cooldowns_of_emits (hp : HotPath) (t : TradeTick)
    (h : hp.tickEmits t = true) :
    (hp.process_tick t).1.cooldowns = hp.cooldowns.set t.symbol_id t.ts_unix_ms := by
  rw [process_tick_fst_of_triggers hp t (tickEmits_triggers hp t h)]
  obtain ⟨ch, htx, hroom, heq⟩ := try_emit_of_emits hp t h
  rw [heq]

/-- Unfolding equation of `emittedTsOn` on a cons. -/
theorem emittedTsOn_cons (s : System) (sym : Nat) (op : SysOp) (ops : List SysOp) :
    s.emittedTsOn sym (op :: ops) =
      (match op with
       | SysOp.tick t => if t.symbol_id = sym ∧ s.hp.tickEmits t then [t.ts_unix_ms] else []
       | _ => []) ++ (s.step op).emittedTsOn sym ops := rfl

/-- Configuration fields and the cooldown-table length survive every step. -/
theorem step_config_frame (s : System) (op : SysOp) :
    (s.step op).hp.cooldown_ms = s.hp.cooldown_ms ∧
    (s.step op).hp.max_symbols = s.hp.max_symbols ∧
    (s.step op).hp.cooldowns.length = s.hp.cooldowns.length := by
  by_cases hop : ∃ t, op = SysOp.tick t
  · obtain ⟨t, rfl⟩ := hop
    have h2 : (s.step (SysOp.tick t)).hp = (s.hp.process_tick t).1 := rfl
    have hf := try_emit_intent_frame s.hp t
    rcases process_tick_fst_cases s.hp t with h1 | h1 <;> rw [h2, h1]
    · exact ⟨rfl, rfl, rfl⟩
    · exact ⟨hf.2.2.2.2.1, hf.2.2.1, hf.2.2.2.2.2⟩
  · have hnc := step_counters_nonTick s op (fun t h => hop ⟨t, h⟩)
    refine ⟨?_, ?_, ?_⟩
    · cases op with
      | tick t => exact absurd ⟨t, rfl⟩ hop
      | simStep =>
        unfold System.step
        dsimp only
        cases htx : s.hp.intent_tx with
        | none => rfl
        | some ch =>
          obtain ⟨cap, q⟩ := ch
          dsimp only
          cases q <;> rfl
      | feedbackStep =>
        unfold System.step
        dsimp only
        cases hev : s.sim.event_tx with
        | none => rfl
        | some ch =>
          obtain ⟨cap, q⟩ := ch
          dsimp only
          cases q with
          | nil => rfl
          | cons ev rest =>
            dsimp only
            split
            · unfold HotPath.decrement_open_intents
              dsimp only
              split <;> rfl
            · rfl
      | replenish n => rfl
      | setCanBuy b => rfl
      | updateSnap sym px ts =>
        unfold System.step HotPath.update_snapshot
        dsimp only
        split <;> rfl
      | updateAggs sym ts =>
        unfold System.step HotPath.update_aggregates
        dsimp only
        split <;> rfl
    · cases op with
      | tick t => exact absurd ⟨t, rfl⟩ hop
      | simStep =>
        unfold System.step
        dsimp only
        cases htx : s.hp.intent_tx with
        | none => rfl
        | some ch =>
          obtain ⟨cap, q⟩ := ch
          dsimp only
          cases q <;> rfl
      | feedbackStep =>
        unfold System.step
        dsimp only
        cases hev : s.sim.event_tx with
        | none => rfl
        | some ch =>
          obtain ⟨cap, q⟩ := ch
          dsimp only
          cases q with
          | nil => rfl
          | cons ev rest =>
            dsimp only
            split
            · unfold HotPath.decrement_open_intents
              dsimp only
              split <;> rfl
            · rfl
      | replenish n => rfl
      | setCanBuy b => rfl
      | updateSnap sym px ts =>
        unfold System.step HotPath.update_snapshot
        dsimp only
        split <;> rfl
      | updateAggs sym ts =>
        unfold System.step HotPath.update_aggregates
        dsimp only
        split <;> rfl
    · rw [hnc.2.2.2.2]

/-- Along a trace, every emitted timestamp on a symbol is at least the
current cooldown stamp plus the cooldown, and consecutive emissions are
spaced by at least the cooldown. -/
theorem emitted_cooldown_aux (ops : List SysOp) (s : System) (sym : Nat)
    (hlen : s.hp.max_symbols ≤ s.hp.cooldowns.length)
    (hstamp : s.hp.cooldowns.getD sym 0 + s.hp.cooldown_ms < U64)
    (hticks : ∀ t : TradeTick, SysOp.tick t ∈ ops → t.ts_unix_ms + s.hp.cooldown_ms < U64) :
    (∀ x ∈ s.emittedTsOn sym ops, s.hp.cooldowns.getD sym 0 + s.hp.cooldown_ms ≤ x) ∧
    List.Pairwise (fun a b => a + s.hp.cooldown_ms ≤ b) (s.emittedTsOn sym ops) := by
  induction ops generalizing s with
  | nil => simp [System.emittedTsOn]
  | cons op ops ih =>
    have hcfg := step_config_frame s op
    have hlen' : (s.step op).hp.max_symbols ≤ (s.step op).hp.cooldowns.length := by
      rw [hcfg.2.1, hcfg.2.2]; exact hlen
    have hticks' : ∀ t : TradeTick, SysOp.tick t ∈ ops →
        t.ts_unix_ms + (s.step op).hp.cooldown_ms < U64 := by
      intro t ht
      rw [hcfg.1]
      exact hticks t (List.mem_cons_of_mem _ ht)
    rw [emittedTsOn_cons]
    by_cases hop : ∃ t, op = SysOp.tick t
    · obtain ⟨t, rfl⟩ := hop
      dsimp only
      by_cases hemit : t.symbol_id = sym ∧ s.hp.tickEmits t
      · obtain ⟨hsym, hem⟩ := hemit
        have hstep : (s.step (SysOp.tick t)).hp = (s.hp.process_tick t).1 := rfl
        have hin : t.symbol_id < s.hp.max_symbols :=
          (tickTriggers_elim s.hp t (tickEmits_triggers s.hp t hem)).2.1
        have hsetStamp : (s.step (SysOp.tick t)).hp.cooldowns.getD sym 0 = t.ts_unix_ms := by
          rw [hstep, process_tick_cooldowns_of_emits s.hp t hem, ← hsym]
          exact getD_set_self _ _ _ _ (lt_of_lt_of_le hin hlen)
        have hts_head : t.ts_unix_ms + s.hp.cooldown_ms < U64 :=
          hticks t (List.mem_cons_self _ _)
        have hcool2 : s.hp.cooldowns.getD sym 0 + s.hp.cooldown_ms ≤ t.ts_unix_ms := by
          have h0 := tickEmits_cooldown_ok s.hp t hem
          rw [hsym] at h0
          rwa [Nat.mod_eq_of_lt hstamp] at h0
        have hstamp' : (s.step (SysOp.tick t)).hp.cooldowns.getD sym 0 +
            (s.step (SysOp.tick t)).hp.cooldown_ms < U64 := by
          rw [hsetStamp, hcfg.1]; exact hts_head
        obtain ⟨ihAll, ihPW⟩ := ih (s.step (SysOp.tick t)) hlen' hstamp' hticks'
        rw [hsetStamp, hcfg.1] at ihAll
        rw [hcfg.1] at ihPW
        rw [if_pos ⟨hsym, hem⟩]
        simp only [List.singleton_append]
        constructor
        · intro x hx
          rcases List.mem_cons.mp hx with he | hm
          · subst he; exact hcool2
          · have := ihAll x hm
            omega
        · exact List.Pairwise.cons (fun x hx => ihAll x hx) ihPW
      · rw [if_neg hemit]
        simp only [List.nil_append]
        have hstep : (s.step (SysOp.tick t)).hp = (s.hp.process_tick t).1 := rfl
        have hpres : (s.step (SysOp.tick t)).hp.cooldowns.getD sym 0 =
            s.hp.cooldowns.getD sym 0 := by
          by_cases hem : s.hp.tickEmits t = true
          · have hsne : t.symbol_id ≠ sym := fun hs => hemit ⟨hs, hem⟩
            rw [hstep, process_tick_cooldowns_of_emits s.hp t hem]
            exact getD_set_ne _ _ _ _ _ hsne
          · rw [hstep, (process_tick_of_not_emits s.hp t (by simpa using hem)).2.2]
        have hstamp' : (s.step (SysOp.tick t)).hp.cooldowns.getD sym 0 +
            (s.step (SysOp.tick t)).hp.cooldown_ms < U64 := by
          rw [hpres, hcfg.1]; exact hstamp
        obtain ⟨ihAll, ihPW⟩ := ih (s.step (SysOp.tick t)) hlen' hstamp' hticks'
        rw [hpres, hcfg.1] at ihAll
        rw [hcfg.1] at ihPW
        exact ⟨ihAll, ihPW⟩
    · have hnc := step_counters_nonTick s op (fun t h => hop ⟨t, h⟩)
      have hpres : (s.step op).hp.cooldowns.getD sym 0 = s.hp.cooldowns.getD sym 0 := by
        rw [hnc.2.2.2.2]
      have hstamp' : (s.step op).hp.cooldowns.getD sym 0 + (s.step op).hp.cooldown_ms < U64 := by
        rw [hpres, hcfg.1]; exact hstamp
      obtain ⟨ihAll, ihPW⟩ := ih (s.step op) hlen' hstamp' hticks'
      rw [hpres, hcfg.1] at ihAll
      rw [hcfg.1] at ihPW
      cases op with
      | tick t => exact absurd ⟨t, rfl⟩ hop
      | simStep => exact ⟨by simpa using ihAll, by simpa using ihPW⟩
      | feedbackStep => exact ⟨by simpa using ihAll, by simpa using ihPW⟩
      | replenish n => exact ⟨by simpa using ihAll, by simpa using ihPW⟩
      | setCanBuy b => exact ⟨by simpa using ihAll, by simpa using ihPW⟩
      | updateSnap a b c => exact ⟨by simpa using ihAll, by simpa using ihPW⟩
      | updateAggs a b => exact ⟨by simpa using ihAll, by simpa using ihPW⟩

/-- C4: along any trace (timestamps and stamps below the u64 wrap), any two
ticks on the same instrument that both result in an emitted intent are
spaced by at least `cooldown_ms` — the later timestamp is at least the
earlier plus the cooldown; moreover a tick emits only if its timestamp
reaches the stamped deadline `cooldowns[symbol] + cooldown_ms`, and emission
restamps the slot with the timestamp of the tick. -/
theorem cooldown_spacing :
    (∀ (s : System) (sym : Nat) (ops : List SysOp),
        s.hp.max_symbols ≤ s.hp.cooldowns.length →
        s.hp.cooldowns.getD sym 0 + s.hp.cooldown_ms < U64 →
        (∀ t : TradeTick, SysOp.tick t ∈ ops → t.ts_unix_ms + s.hp.cooldown_ms < U64) →
        List.Pairwise (fun a b => a + s.hp.cooldown_ms ≤ b) (s.emittedTsOn sym ops))
  ∧ (∀ (hp : HotPath) (t : TradeTick), hp.tickEmits t = true →
        (hp.cooldowns.getD t.symbol_id 0 + hp.cooldown_ms) % U64 ≤ t.ts_unix_ms ∧
        (t.symbol_id < hp.cooldowns.length →
          (hp.process_tick t).1.cooldowns.getD t.symbol_id 0 = t.ts_unix_ms)) := by
  constructor
  · intro s sym ops h1 h2 h3
    exact (emitted_cooldown_aux ops s sym h1 h2 h3).2
  · intro hp t h
    refine ⟨tickEmits_cooldown_ok hp t h, fun hl => ?_⟩
    rw [process_tick_cooldowns_of_emits hp t h]
    exact getD_set_self _ _ _ _ hl

/-- Witness for `cooldown_spacing`: two emissions on symbol 0 at `ts = 1500`
and `ts = 1600` under a 100 ms cooldown satisfy the spacing, and the trace
indeed emits both. -/
theorem cooldown_spacing_witness :
    sysCooldown.emittedTsOn 0 opsCooldown = [1500, 1600] ∧
    List.Pairwise (fun a b => a + sysCooldown.hp.cooldown_ms ≤ b)
      (sysCooldown.emittedTsOn 0 opsCooldown) := by
  refine ⟨?_, ?_⟩
  · norm_num [sysCooldown, hpCooldown, hpBackpressure, opsCooldown, trigRing,
      System.emittedTsOn, System.step, HotPath.tickEmits, HotPath.tickTriggers,
      HotPath.process_tick, HotPath.try_emit_intent, PriceSnapshot.compute_return_60s,
      PriceSnapshot.returnWithCutoff, scanStep, scanInit, BChannel.try_send,
      OrderIntent.new, U64, U32, ExecutionMock.new]
  · exact cooldown_spacing.1 sysCooldown 0 opsCooldown
      (by norm_num [sysCooldown, hpCooldown, hpBackpressure])
      (by norm_num [sysCooldown, hpCooldown, hpBackpressure, U64])
      (by
        intro t ht
        simp only [opsCooldown, List.mem_cons, List.mem_singleton] at ht
        rcases ht with ht | ht | ht
        · cases ht
          norm_num [sysCooldown, hpCooldown, hpBackpressure, U64]
        · cases ht
          norm_num [sysCooldown, hpCooldown, hpBackpressure, U64]
        · cases ht)

/-- The simulator bumps all three counters together on each consumed intent
and keeps its event sender. -/
theorem process_intent_counters (m : ExecutionMock) (i : OrderIntent)
    (h : m.event_tx.isSome = true) :
    (m.process_intent i).1.submitted_count = m.submitted_count + 1 ∧
    (m.process_intent i).1.ack_count = m.ack_count + 1 ∧
    (m.process_intent i).1.fill_count = m.fill_count + 1 ∧
    (m.process_intent i).1.event_tx.isSome = true := by
  unfold ExecutionMock.process_intent
  cases htx : m.event_tx with
  | none => rw [htx] at h; cases h
  | some tx => exact ⟨rfl, rfl, rfl, rfl⟩

/-- The feedback decrement leaves channel and emission counter alone. -/
theorem decrement_frame (hp : HotPath) :
    (hp.decrement_open_intents).intent_tx = hp.intent_tx ∧
    (hp.decrement_open_intents).emitted_intents = hp.emitted_intents := by
  unfold HotPath.decrement_open_intents
  dsimp only
  split <;> exact ⟨rfl, rfl⟩

/-- Maintenance appends leave channel and emission counter alone. -/
theorem update_snapshot_frame (hp : HotPath) (sym px ts : Nat) :
    (hp.update_snapshot sym px ts).intent_tx = hp.intent_tx ∧
    (hp.update_snapshot sym px ts).emitted_intents = hp.emitted_intents := by
  unfold HotPath.update_snapshot
  split <;> exact ⟨rfl, rfl⟩

/-- Aggregate refreshes leave channel and emission counter alone. -/
theorem update_aggregates_frame (hp : HotPath) (sym ts : Nat) :
    (hp.update_aggregates sym ts).intent_tx = hp.intent_tx ∧
    (hp.update_aggregates sym ts).emitted_intents = hp.emitted_intents := by
  unfold HotPath.update_aggregates
  split <;> exact ⟨rfl, rfl⟩

/-- The counter invariant survives every trace step. -/
theorem step_CounterInv (s : System) (op : SysOp) (h : CounterInv s) :
    CounterInv (s.step op) := by
  obtain ⟨hev, hfill, hack, hqueue⟩ := h
  cases op with
  | tick t =>
    have hsim : (s.step (SysOp.tick t)).sim = s.sim := rfl
    have hstep : (s.step (SysOp.tick t)).hp = (s.hp.process_tick t).1 := rfl
    refine ⟨by rw [hsim]; exact hev, by rw [hsim]; exact hfill,
      by rw [hsim]; exact hack, ?_⟩
    intro ch0 h0
    rw [hsim]
    by_cases hem : s.hp.tickEmits t = true
    · obtain ⟨ch, htx, hroom, heq⟩ := try_emit_of_emits s.hp t hem
      have hpt := process_tick_fst_of_triggers s.hp t (tickEmits_triggers s.hp t hem)
      rw [hstep, hpt, heq] at h0
      rw [hstep, hpt, heq]
      dsimp only at h0 ⊢
      injection h0 with h0
      rw [← h0]
      have hq := hqueue ch htx
      simp only [List.length_append, List.length_singleton]
      omega
    · have hne := process_tick_of_not_emits s.hp t (by simpa using hem)
      rw [hstep, hne.1] at h0
      rw [hstep, hne.2.1]
      exact hqueue ch0 h0
  | simStep =>
    cases htx : s.hp.intent_tx with
    | none =>
      have hs : s.step SysOp.simStep = s := by
        unfold System.step
        rw [htx]
      rw [hs]
      exact ⟨hev, hfill, hack, hqueue⟩
    | some ch =>
      obtain ⟨cap, q⟩ := ch
      cases q with
      | nil =>
        have hs : s.step SysOp.simStep = s := by
          unfold System.step
          rw [htx]
        rw [hs]
        exact ⟨hev, hfill, hack, hqueue⟩
      | cons i rest =>
        have hs : s.step SysOp.simStep =
            { hp := { s.hp with intent_tx := some ⟨cap, rest⟩ },
              sim := (s.sim.process_intent i).1 } := by
          unfold System.step
          rw [htx]
        rw [hs]
        have hc := process_intent_counters s.sim i hev
        refine ⟨hc.2.2.2, ?_, ?_, ?_⟩
        · rw [hc.2.2.1, hc.1, hfill]
        · rw [hc.2.1, hc.1, hack]
        · intro ch0 h0
          dsimp only at h0 ⊢
          injection h0 with h0
          rw [← h0, hc.1]
          have hq := hqueue ⟨cap, i :: rest⟩ htx
          simp only [List.length_cons] at hq
          dsimp only
          omega
  | feedbackStep =>
    cases hev2 : s.sim.event_tx with
    | none => rw [hev2] at hev; cases hev
    | some ch =>
      obtain ⟨cap, q⟩ := ch
      cases q with
      | nil =>
        have hs : s.step SysOp.feedbackStep = s := by
          unfold System.step
          rw [hev2]
        rw [hs]
        exact ⟨hev, hfill, hack, hqueue⟩
      | cons ev rest =>
        have hd := decrement_frame s.hp
        by_cases hk : ev.kind = OrderEventKind.Fill
        · have hs : s.step SysOp.feedbackStep =
              { hp := s.hp.decrement_open_intents,
                sim := { s.sim with event_tx := some ⟨cap, rest⟩ } } := by
            unfold System.step
            rw [hev2]
            dsimp only
            rw [if_pos hk]
          rw [hs]
          refine ⟨rfl, hfill, hack, ?_⟩
          intro ch0 h0
          dsimp only at h0 ⊢
          rw [hd.1] at h0
          rw [hd.2]
          exact hqueue ch0 h0
        · have hs : s.step SysOp.feedbackStep =
              { s with sim := { s.sim with event_tx := some ⟨cap, rest⟩ } } := by
            unfold System.step
            rw [hev2]
            dsimp only
            rw [if_neg hk]
          rw [hs]
          exact ⟨rfl, hfill, hack, hqueue⟩
  | replenish n =>
    exact ⟨hev, hfill, hack, fun ch0 h0 => hqueue ch0 h0⟩
  | setCanBuy b =>
    exact ⟨hev, hfill, hack, fun ch0 h0 => hqueue ch0 h0⟩
  | updateSnap sym px ts =>
    have hu := update_snapshot_frame s.hp sym px ts
    refine ⟨hev, hfill, hack, ?_⟩
    intro ch0 h0
    have h1 : (s.step (SysOp.updateSnap sym px ts)).hp = s.hp.update_snapshot sym px ts := rfl
    rw [h1, hu.1] at h0
    show s.sim.submitted_count + ch0.queue.length =
      (s.step (SysOp.updateSnap sym px ts)).hp.emitted_intents
    rw [h1, hu.2]
    exact hqueue ch0 h0
  | updateAggs sym ts =>
    have hu := update_aggregates_frame s.hp sym ts
    refine ⟨hev, hfill, hack, ?_⟩
    intro ch0 h0
    have h1 : (s.step (SysOp.updateAggs sym ts)).hp = s.hp.update_aggregates sym ts := rfl
    rw [h1, hu.1] at h0
    show s.sim.submitted_count + ch0.queue.length =
      (s.step (SysOp.updateAggs sym ts)).hp.emitted_intents
    rw [h1, hu.2]
    exact hqueue ch0 h0

/-- The counter invariant holds along every trace. -/
theorem run_CounterInv (s : System) (ops : List SysOp) (h : CounterInv s) :
    CounterInv (s.run ops) := by
  induction ops generalizing s with
  | nil => exact h
  | cons op ops ih => exact ih (s.step op) (step_CounterInv s op h)

/-- C5: from the wired start (sender handed to the hot path, simulator on
the same channel), after every trace of hot-path and simulator operations
`fill_count ≤ ack_count ≤ submitted_count`, `submitted_count` plus the
pending intents equals `emitted_intents`, and once every emitted intent has
been consumed (queue empty) `submitted_count = emitted_intents`. -/
theorem execution_counter_ordering (ms : Nat) (th : ℚ) (ws mo cd bud qc ad fd : Nat)
    (ops : List SysOp) :
    ((mkSystem ms th ws mo cd bud qc ad fd).run ops).sim.fill_count ≤
      ((mkSystem ms th ws mo cd bud qc ad fd).run ops).sim.ack_count ∧
    ((mkSystem ms th ws mo cd bud qc ad fd).run ops).sim.ack_count ≤
      ((mkSystem ms th ws mo cd bud qc ad fd).run ops).sim.submitted_count ∧
    (∀ ch : BChannel OrderIntent,
      ((mkSystem ms th ws mo cd bud qc ad fd).run ops).hp.intent_tx = some ch →
      ((mkSystem ms th ws mo cd bud qc ad fd).run ops).sim.submitted_count +
          ch.queue.length =
        ((mkSystem ms th ws mo cd bud qc ad fd).run ops).hp.emitted_intents) ∧
    (∀ ch : BChannel OrderIntent,
      ((mkSystem ms th ws mo cd bud qc ad fd).run ops).hp.intent_tx = some ch →
      ch.queue = [] →
      ((mkSystem ms th ws mo cd bud qc ad fd).run ops).sim.submitted_count =
        ((mkSystem ms th ws mo cd bud qc ad fd).run ops).hp.emitted_intents) := by
  have h0 : CounterInv (mkSystem ms th ws mo cd bud qc ad fd) := by
    refine ⟨rfl, rfl, rfl, ?_⟩
    intro ch h
    have hmk : (mkSystem ms th ws mo cd bud qc ad fd).hp.intent_tx =
        some ⟨qc, []⟩ := rfl
    rw [hmk] at h
    injection h with h2
    rw [← h2]
    rfl
  have hInv := run_CounterInv (mkSystem ms th ws mo cd bud qc ad fd) ops h0
  obtain ⟨hev, hfill, hack, hqueue⟩ := hInv
  refine ⟨by omega, by omega, hqueue, ?_⟩
  intro ch hch hnil
  have := hqueue ch hch
  rw [hnil] at this
  simpa using this

/-- Witness for `execution_counter_ordering`: after two appends, one
triggering tick and one simulator step, the single emitted intent has been
consumed and `submitted_count = emitted_intents` (both 1). -/
theorem execution_counter_ordering_witness :
    (sysPipeline.run opsPipeline).sim.submitted_count =
      (sysPipeline.run opsPipeline).hp.emitted_intents ∧
    (sysPipeline.run opsPipeline).hp.emitted_intents = 1 := by
  have h := execution_counter_ordering 1 5 1 10 0 5 4 0 0 opsPipeline
  have hfin : (sysPipeline.run opsPipeline).hp.intent_tx = some ⟨4, []⟩ := by
    norm_num [sysPipeline, opsPipeline, mkSystem, System.run, System.step,
      HotPath.with_config, HotPath.set_intent_sender, HotPath.update_snapshot,
      PriceSnapshot.new, PriceSnapshot.add, HotPath.process_tick, HotPath.try_emit_intent,
      PriceSnapshot.compute_return_60s, PriceSnapshot.returnWithCutoff, scanStep, scanInit,
      BChannel.try_send, OrderIntent.new, ExecutionMock.new, ExecutionMock.process_intent,
      OrderEvent.new, U64, U32, List.replicate]
  refine ⟨h.2.2.2 ⟨4, []⟩ hfin rfl, ?_⟩
  norm_num [sysPipeline, opsPipeline, mkSystem, System.run, System.step,
    HotPath.with_config, HotPath.set_intent_sender, HotPath.update_snapshot,
    PriceSnapshot.new, PriceSnapshot.add, HotPath.process_tick, HotPath.try_emit_intent,
    PriceSnapshot.compute_return_60s, PriceSnapshot.returnWithCutoff, scanStep, scanInit,
    BChannel.try_send, OrderIntent.new, ExecutionMock.new, ExecutionMock.process_intent,
    OrderEvent.new, U64, U32, List.replicate]

end AltBot

